import Mathlib

/-!
Shallow embedding of the `obnth` path-resolution core (`src/open.rs`,
`src/util.rs`, `src/constants.rs`) and proofs about it.

Kernel syscalls (`fstat`, `openat`, `readlinkat`, the mount-id probe,
`openat2`) are abstracted as pure functions packaged in a `World`
structure: one resolution sees an unchanging filesystem, which is the
setting of the claims under verification (the races the code guards
against are modelled by letting the `World` answer arbitrarily).

Every embedded operation returns, next to its `Except` result, the list
of raw flag words that were handed to the kernel `openat` by the single
`openat_raw` helper; this trace lets us state that every descriptor is
opened with `O_CLOEXEC | O_NOCTTY`.

Byte paths are modelled as `List Char`, flags and modes as `Nat` (they
are non-negative C ints), file descriptors as `Int` (`AT_FDCWD` is
negative), and errnos as `Int`. Numeric constants are the Linux
(x86-64) values used by the crate.
-/

namespace Obnth

/-! # Definitions -/

/-- Errno values (Linux). -/
abbrev Errno := Int

def EPERM : Errno := 1
def ENOENT : Errno := 2
def E2BIG : Errno := 7
def EBADF : Errno := 9
def EAGAIN : Errno := 11
def EXDEV : Errno := 18
def ENOTDIR : Errno := 20
def EINVAL : Errno := 22
def ENOSYS : Errno := 38
def ELOOP : Errno := 40

/-- Out-of-fuel marker for the fueled loops; distinct from every real errno. -/
def EFUEL : Errno := 1000000

/-- Marker for a Rust `unwrap()` panic on `None`; distinct from every real errno. -/
def EPANIC : Errno := 1000001

/-! Open flags (Linux x86-64 values). -/

def O_RDONLY : Nat := 0
def O_NOCTTY : Nat := 0o400
def O_DIRECTORY : Nat := 0o200000
def O_NOFOLLOW : Nat := 0o400000
def O_CLOEXEC : Nat := 0o2000000
def O_PATH : Nat := 0o10000000

/-- `constants::DIR_OPEN_FLAGS` on Linux: `O_PATH | O_DIRECTORY`. -/
def DIR_OPEN_FLAGS : Nat := O_PATH ||| O_DIRECTORY

/-- `constants::DEFAULT_SYMLOOP_MAX`. -/
def DEFAULT_SYMLOOP_MAX : Nat := 40

/-! File-type bits of `st_mode`. -/

def S_IFMT : Nat := 0o170000
def S_IFDIR : Nat := 0o40000
def S_IFLNK : Nat := 0o120000
def S_IFREG : Nat := 0o100000

def AT_FDCWD : Int := -100

/-! Lookup flags (`LookupFlags` bit values). -/

def NO_SYMLINKS : Nat := 0x01
def IN_ROOT : Nat := 0x02
def NO_XDEV : Nat := 0x04

/-- The fields of `libc::stat` the resolver reads. -/
structure Stat where
  dev : Nat
  ino : Nat
  mode : Nat
  deriving DecidableEq, Repr

/-- The zero-initialized `stat` used for `prev_stat` in `check_beneath`. -/
def zeroStat : Stat := ⟨0, 0, 0⟩

/-- `util::samestat`: identity comparison by `(st_ino, st_dev)`. -/
def samestat (st1 st2 : Stat) : Bool :=
  st1.ino == st2.ino && st1.dev == st2.dev

/-! ## `util::SymlinkCounter` -/

/-- `util::SymlinkCounter`: two `u16` counters. -/
structure SymlinkCounter where
  max : Nat
  cur : Nat
  deriving DecidableEq, Repr

namespace SymlinkCounter

/-- `SymlinkCounter::new()`. `sys` is the value returned by
`sysconf(_SC_SYMLOOP_MAX)` (a C `long`; `-1` on failure); `try_into::<u16>()`
succeeds exactly when `0 ≤ sys < 2^16`, otherwise the default 40 is used. -/
def new (sys : Int) : SymlinkCounter :=
  ⟨if 0 ≤ sys ∧ sys < 65536 then sys.toNat else DEFAULT_SYMLOOP_MAX, 0⟩

/-- `SymlinkCounter::nolinks()`. -/
def nolinks : SymlinkCounter := ⟨0, 0⟩

/-- `SymlinkCounter::exhausted()`: `cur >= max`. -/
def exhausted (c : SymlinkCounter) : Bool := c.max ≤ c.cur

/-- `SymlinkCounter::advance()`: `ELOOP` when exhausted, else `cur += 1`
(u16 addition, hence the `% 2^16`). -/
def advance (c : SymlinkCounter) : Except Errno SymlinkCounter :=
  if c.exhausted then .error ELOOP
  else .ok ⟨c.max, (c.cur + 1) % 65536⟩

/-- Well-formedness of a counter state: `cur ≤ max` and both fit in `u16`. -/
def Wf (c : SymlinkCounter) : Prop := c.cur ≤ c.max ∧ c.max < 65536

end SymlinkCounter

/-! ## Paths and the tokenizer (`split_path`, `split_link_path_into`) -/

/-- A byte path (the crate works on raw `OsStr` bytes; we use chars). -/
abbrev RawPath := List Char

/-- A single component name as passed to `openat` / `readlinkat`. -/
abbrev Name := List Char

/-- `std::path::Component`, restricted to the Unix cases the crate sees
(after its `CurDir` filter, `CurDir` never reaches the queue — except for
the synthetic `.` pushed by `split_link_path_into`, which travels as a
`normal` component exactly as its `CStr` form does in the code). -/
inductive PathComp where
  | root
  | parent
  | normal (name : Name)
  deriving DecidableEq, Repr

/-- The component queue: `(component, per-step open flags)` pairs. -/
abbrev Queue := List (PathComp × Nat)

/-- Split on `/`, keeping empty segments (they are filtered later, matching
how `Path::components` skips duplicate separators). -/
def splitSegsAux (acc : List Char) : List Char → List (List Char)
  | [] => [acc.reverse]
  | c :: rest =>
    if c = '/' then acc.reverse :: splitSegsAux [] rest
    else splitSegsAux (c :: acc) rest

def splitSegs (p : RawPath) : List (List Char) := splitSegsAux [] p

/-- Absolute path: begins with `/` (yielding a `RootDir` component). -/
def isAbs : RawPath → Bool
  | [] => false
  | c :: _ => c = '/'

/-- Does the path end with `/` or `/.` (the trailing-slash test of
`split_path` / `split_link_path_into`)? -/
def dirishRev : List Char → Bool
  | [] => false
  | c :: rest =>
    if c = '/' then true
    else match rest with
      | [] => false
      | c2 :: _ => c = '.' && c2 = '/'

def dirish (p : RawPath) : Bool := dirishRev p.reverse

/-- The flags given to the final component: the caller's flags, plus
`O_DIRECTORY` when the path ends in `/` or `/.`. -/
def dirFlagsFor (p : RawPath) (flags : Nat) : Nat :=
  if dirish p then flags ||| O_DIRECTORY else flags

/-- Segments that survive `Path::components` plus the crate's `CurDir`
filter: non-empty and not `.`. -/
def keepSeg (n : List Char) : Bool :=
  if n = [] ∨ n = ['.'] then false else true

/-- Classify a kept segment (`..` is `ParentDir`, all else `Normal`). -/
def segComp (n : List Char) : PathComp :=
  if n = ['.', '.'] then .parent else .normal n

/-- `Path::components()` with the crate's `filter(|c| !CurDir)` applied:
a root marker for absolute paths, then the kept segments. -/
def rustComponents (p : RawPath) : List PathComp :=
  let comps := ((splitSegs p).filter keepSeg).map segComp
  if isAbs p then .root :: comps else comps

/-- Annotate a component list: every component takes `DIR_OPEN_FLAGS`
except the last, which takes `flags` (the loop over a peekable iterator
in `split_path`). -/
def annotateLast (flags : Nat) : List PathComp → Queue
  | [] => []
  | [c] => [(c, flags)]
  | c :: c2 :: rest => (c, DIR_OPEN_FLAGS) :: annotateLast flags (c2 :: rest)

/-- `open.rs::split_path`. -/
def split_path (p : RawPath) (flags : Nat) : Except Errno Queue :=
  if p = [] then .error ENOENT
  else .ok (annotateLast (dirFlagsFor p flags) (rustComponents p))

/-- `open.rs::split_link_path_into`: tokenize a symlink target onto the
front of `queue`; push a synthetic `.` if the whole queue would be empty. -/
def split_link_path_into (p : RawPath) (flags : Nat) (queue : Queue) :
    Except Errno Queue :=
  if p = [] then .error ENOENT
  else
    let fl := dirFlagsFor p flags
    let q2 := annotateLast fl (rustComponents p) ++ queue
    .ok (if q2 = [] then [(.normal ['.'], fl)] else q2)

/-! ## The abstract kernel: `World` -/

/-- The kernel as seen by one resolution: a static filesystem answering
each syscall as a pure function of its arguments. `symloopMax` is what
`sysconf(_SC_SYMLOOP_MAX)` returns. `openat2Probe` and `openat2` model
the Linux `openat2(2)` fast path (see `hasOpenat2`). -/
structure World where
  fstat : Int → Except Errno Stat
  openatRaw : Int → Name → Nat → Nat → Except Errno Int
  readlinkat : Int → Name → Except Errno RawPath
  identifyMount : Int → Except Errno Nat
  symloopMax : Int
  openat2Probe : Except Errno Unit
  openat2 : Int → RawPath → Nat → Nat → Nat → Except Errno Int

/-- Result of an embedded operation: the `Except` outcome plus the raw
flag words this operation passed to the kernel `openat`. -/
abbrev Res (α : Type) := Except Errno α × List Nat

/-- Sequencing for `Res`: traces concatenate; errors short-circuit. -/
def rbind {α β : Type} (x : Res α) (f : α → Res β) : Res β :=
  match x with
  | (.error e, t) => (.error e, t)
  | (.ok a, t) => ((f a).1, t ++ (f a).2)

/-- Prefix an already-emitted trace onto a result. -/
def prefixTrace {α : Type} (t : List Nat) (r : Res α) : Res α := (r.1, t ++ r.2)

def fstatR (w : World) (fd : Int) : Res Stat := (w.fstat fd, [])

def identifyMountR (w : World) (fd : Int) : Res Nat := (w.identifyMount fd, [])

def readlinkatR (w : World) (fd : Int) (path : Name) : Res RawPath :=
  (w.readlinkat fd path, [])

/-- `util::openat` on top of `util::openat_raw`: the single place where
descriptors are opened; it unconditionally ORs `O_CLOEXEC | O_NOCTTY`
into whatever flags it is handed before reaching the kernel. -/
def openatR (w : World) (dirFd : Int) (path : Name) (flags mode : Nat) : Res Int :=
  (w.openatRaw dirFd path (flags ||| O_CLOEXEC ||| O_NOCTTY) mode,
   [flags ||| O_CLOEXEC ||| O_NOCTTY])

/-- `util::open_dot`. -/
def open_dot (w : World) (dirFd : Int) (flags mode : Nat) : Res Int :=
  openatR w dirFd ['.'] flags mode

/-- `util::open_dotdot`. -/
def open_dotdot (w : World) (dirFd : Int) (flags mode : Nat) : Res Int :=
  openatR w dirFd ['.', '.'] flags mode

/-! ## `check_beneath` (the rewind verifier) -/

/-- The loop of `open.rs::check_beneath`, with explicit fuel (the real
loop terminates because `..` chains reach `/`, which the claims encode as
a stabilizing stat chain; `EFUEL` marks fuel exhaustion and equals no
real errno). State: the current file (None = still at `base_fd`) and the
previous iteration's stat. -/
def checkBeneathLoop (w : World) (dirStat : Stat) (baseFd : Int) :
    Nat → Option Int → Stat → Res Unit
  | 0, _, _ => (.error EFUEL, [])
  | fuel + 1, curFile, prevStat =>
    let curFd := curFile.getD baseFd
    rbind (fstatR w curFd) fun curStat =>
      if samestat curStat dirStat then (.ok (), [])
      else if curFile.isSome && samestat curStat prevStat then (.error EAGAIN, [])
      else rbind (open_dotdot w curFd DIR_OPEN_FLAGS 0) fun nf =>
        checkBeneathLoop w dirStat baseFd fuel (some nf) curStat

/-- `open.rs::check_beneath`: `prev_stat` starts zeroed, `cur_file` starts
as `None` (meaning `base_fd`). -/
def check_beneath (w : World) (baseFd : Int) (dirStat : Stat) (fuel : Nat) : Res Unit :=
  checkBeneathLoop w dirStat baseFd fuel none zeroStat

/-- A world whose `..` ancestry from descriptor `i` is the chain
`i → i + 1`, with stat identities `stats i`; this is the generic setting
for the rewind-verifier claim (any concrete ancestor walk arises this
way by numbering the descriptors in the order they are opened). -/
def chainWorld (stats : Nat → Stat) : World where
  fstat fd := if 0 ≤ fd then .ok (stats fd.toNat) else .error EBADF
  openatRaw dirFd name _flags _mode :=
    if name = ['.', '.'] ∧ 0 ≤ dirFd then .ok (dirFd + 1) else .error ENOENT
  readlinkat _ _ := .error EINVAL
  identifyMount _ := .error ENOSYS
  symloopMax := -1
  openat2Probe := .error ENOSYS
  openat2 _ _ _ _ _ := .error ENOSYS

/-! ## `handle_possible_symlink` and `check_mnt_id` -/

/-- `open.rs::handle_possible_symlink` (the symlink expander): `eno` is the
errno the opener reported (`ELOOP` or `ENOTDIR`); returns the updated
symlink budget and component queue. -/
def handle_possible_symlink (w : World) (relfd : Int) (relpath : Name)
    (flags : Nat) (eno : Errno) (links : SymlinkCounter) (parts : Queue) :
    Res (SymlinkCounter × Queue) :=
  if eno = ELOOP ∧ (flags &&& O_NOFOLLOW = O_NOFOLLOW ∨ links.exhausted) then
    (.error (if flags &&& O_DIRECTORY = O_DIRECTORY ∧ ¬links.exhausted
             then ENOTDIR else ELOOP), [])
  else
    match w.readlinkat relfd relpath with
    | .error e2 =>
      if e2 = EINVAL then (.error (if eno = ENOTDIR then ENOTDIR else EAGAIN), [])
      else (.error e2, [])
    | .ok target =>
      match links.advance with
      | .error e => (.error e, [])
      | .ok links2 =>
        if flags &&& O_NOFOLLOW = O_NOFOLLOW then
          (.error (if flags &&& O_DIRECTORY = O_DIRECTORY then ENOTDIR else ELOOP), [])
        else
          match split_link_path_into target flags parts with
          | .error e => (.error e, [])
          | .ok parts2 => (.ok (links2, parts2), [])

/-- `open.rs::do_open_beneath::check_mnt_id`: compare the mount identity of
a freshly assigned `cur_file` against the captured root mount identity. -/
def checkMntId (w : World) (dirMntId : Option Nat) (prevFd : Int)
    (newFile : Option Int) : Res Unit :=
  match dirMntId, newFile with
  | some mid, some nf =>
    if nf ≠ prevFd then
      rbind (identifyMountR w nf) fun m =>
        if m ≠ mid then (.error EXDEV, []) else (.ok (), [])
    else (.ok (), [])
  | _, _ => (.ok (), [])

/-! ## The main resolver (`do_open_beneath`) -/

/-- The per-invocation constants of `do_open_beneath`'s loop. -/
structure Ctx where
  dirFd : Int
  dirStat : Stat
  dirMntId : Option Nat
  lookupFlags : Nat
  mode : Nat
  origFlags : Nat
  cbFuel : Nat

/-- The mutable state of `do_open_beneath`'s loop. -/
structure RState where
  parts : Queue
  curFile : Option Int
  sawParent : Bool
  links : SymlinkCounter

/-- Outcome of one loop step: keep looping, or the function's result. -/
inductive StepOut where
  | more (s : RState)
  | done (fd : Int)

/-- Tail shared by every loop iteration that falls through to the bottom of
the `while`: the `check_mnt_id` call, then the next state. -/
def stepFinish (w : World) (c : Ctx) (parts2 : Queue) (cur2 : Option Int)
    (sp2 : Bool) (links2 : SymlinkCounter) (prevFd : Int) : Res StepOut :=
  rbind (checkMntId w c.dirMntId prevFd cur2) fun _ =>
    (.ok (.more ⟨parts2, cur2, sp2, links2⟩), [])

/-- The code after `do_open_beneath`'s loop: final `check_beneath` when
`saw_parent` (the code `unwrap`s `cur_file` there), then return `cur_file`
or a fresh `open_dot` of the root with the caller's original flags. -/
def stepEmpty (w : World) (c : Ctx) (cur : Option Int) (sp : Bool) : Res StepOut :=
  rbind
    (if sp then
      match cur with
      | some f => check_beneath w f c.dirStat c.cbFuel
      | none => (.error EPANIC, [])
    else (.ok (), []))
    fun _ =>
      match cur with
      | some f => (.ok (.done f), [])
      | none =>
        rbind (open_dot w c.dirFd c.origFlags c.mode) fun f => (.ok (.done f), [])

/-- The `b"/"` arm of the loop. -/
def stepRoot (w : World) (c : Ctx) (rest : Queue) (cur : Option Int) (sp : Bool)
    (links : SymlinkCounter) : Res StepOut :=
  if c.lookupFlags &&& IN_ROOT = 0 then (.error EXDEV, [])
  else stepFinish w c rest none sp links (cur.getD c.dirFd)

/-- The `b".."` arm of the loop. -/
def stepParent (w : World) (c : Ctx) (rest : Queue) (flags : Nat)
    (cur : Option Int) (links : SymlinkCounter) : Res StepOut :=
  rbind
    (match cur with
     | none => (.ok true, [])
     | some f => rbind (fstatR w f) fun st => (.ok (samestat st c.dirStat), []))
    fun atRoot =>
      if atRoot then
        if c.lookupFlags &&& IN_ROOT = 0 then (.error EXDEV, [])
        else stepFinish w c rest none false links (cur.getD c.dirFd)
      else
        rbind (open_dotdot w (cur.getD c.dirFd) flags c.mode) fun nf =>
          stepFinish w c rest (some nf) true links (cur.getD c.dirFd)

/-- The normal-component arm of the loop (the rewind check when a `..` was
just consumed, then the component opener and, on a possible symlink, the
expander). -/
def stepNormal (w : World) (c : Ctx) (rest : Queue) (name : Name) (flags : Nat)
    (cur : Option Int) (sp : Bool) (links : SymlinkCounter) : Res StepOut :=
  rbind (if sp then check_beneath w (cur.getD c.dirFd) c.dirStat c.cbFuel
         else (.ok (), []))
    fun _ =>
      match openatR w (cur.getD c.dirFd) name (flags ||| O_NOFOLLOW) c.mode with
      | (.ok f, t1) =>
        prefixTrace t1
          (if flags &&& (O_PATH ||| O_NOFOLLOW ||| O_DIRECTORY) = O_PATH then
            match w.fstat f with
            | .error e => (.error e, [])
            | .ok stf =>
              if stf.mode &&& S_IFMT = S_IFLNK then
                rbind (handle_possible_symlink w f [] flags ELOOP links rest)
                  fun lp => (.ok (.more ⟨lp.2, cur, false, lp.1⟩), [])
              else stepFinish w c rest (some f) false links (cur.getD c.dirFd)
          else stepFinish w c rest (some f) false links (cur.getD c.dirFd))
      | (.error e, t1) =>
        prefixTrace t1
          (if e ≠ ELOOP ∧ e ≠ ENOTDIR then (.error e, [])
           else rbind (handle_possible_symlink w (cur.getD c.dirFd) name flags e links rest)
             fun lp => stepFinish w c lp.2 cur false lp.1 (cur.getD c.dirFd))

/-- One iteration of `do_open_beneath`'s `while let` loop: pop the front of
the queue and dispatch on the component. -/
def resolveStep (w : World) (c : Ctx) (s : RState) : Res StepOut :=
  match s.parts with
  | [] => stepEmpty w c s.curFile s.sawParent
  | (part, flags) :: rest =>
    match part with
    | .root => stepRoot w c rest s.curFile s.sawParent s.links
    | .parent => stepParent w c rest flags s.curFile s.links
    | .normal name => stepNormal w c rest name flags s.curFile s.sawParent s.links

/-- The fueled `while let` loop of `do_open_beneath`. -/
def resolveLoop (w : World) (c : Ctx) : Nat → RState → Res Int
  | 0, _ => (.error EFUEL, [])
  | fuel + 1, s =>
    rbind (resolveStep w c s) fun out =>
      match out with
      | .done fd => (.ok fd, [])
      | .more s2 => resolveLoop w c fuel s2

/-- `open.rs::do_open_beneath` (the slow path). -/
def do_open_beneath (w : World) (dirFd : Int) (path : RawPath)
    (flags mode lookupFlags : Nat) (fuel : Nat) : Res Int :=
  rbind (fstatR w dirFd) fun dirStat =>
    if dirFd = AT_FDCWD then (.error EBADF, [])
    else if dirStat.mode &&& S_IFMT ≠ S_IFDIR then (.error ENOTDIR, [])
    else
      rbind (if lookupFlags &&& NO_XDEV ≠ 0 then
               rbind (identifyMountR w dirFd) fun m => (.ok (some m), [])
             else (.ok none, []))
        fun dirMntId =>
          match split_path path flags with
          | .error e => (.error e, [])
          | .ok parts =>
            let links := if lookupFlags &&& NO_SYMLINKS ≠ 0 then SymlinkCounter.nolinks
                         else SymlinkCounter.new w.symloopMax
            resolveLoop w ⟨dirFd, dirStat, dirMntId, lookupFlags, mode, flags, fuel⟩
              fuel ⟨parts, none, false, links⟩

/-! ## The openat2 fast path -/

def RESOLVE_NO_XDEV : Nat := 0x01
def RESOLVE_NO_MAGICLINKS : Nat := 0x02
def RESOLVE_NO_SYMLINKS : Nat := 0x04
def RESOLVE_BENEATH : Nat := 0x08
def RESOLVE_IN_ROOT : Nat := 0x10

/-- Modelled from the spec: `openat2_rs::has_openat2_cached` (the probing
and caching live in the external `openat2_rs` crate, not in this
repository). Per the spec's fast-path section, a probe that finds the
syscall missing, or blocked by a sandbox (`EPERM`), reports it as
unavailable; only a successful probe reports it available. -/
def hasOpenat2 (w : World) : Bool :=
  match w.openat2Probe with
  | .ok _ => true
  | .error _ => false

/-- The trailing-slash normalization of `open_beneath_openat2`: strip one
trailing `/` (when something precedes it) and require a directory. -/
def o2StripSlash (p : RawPath) (flags : Nat) : RawPath × Nat :=
  match p.getLast? with
  | some c =>
    if c = '/' ∧ 2 ≤ p.length then (p.dropLast, flags ||| O_DIRECTORY)
    else (p, flags)
  | none => (p, flags)

/-- `open.rs::open_beneath_openat2`: the Linux fast path. `Ok none` means
"demote to the slow path". -/
def open_beneath_openat2 (w : World) (dirFd : Int) (path : RawPath)
    (flags mode lookupFlags : Nat) : Res (Option Int) :=
  if dirFd = AT_FDCWD then (.error EBADF, [])
  else if hasOpenat2 w = false then (.ok none, [])
  else
    let pf := o2StripSlash path flags
    let resolve := RESOLVE_NO_MAGICLINKS
      ||| (if lookupFlags &&& IN_ROOT ≠ 0 then RESOLVE_IN_ROOT else RESOLVE_BENEATH)
      ||| (if lookupFlags &&& NO_SYMLINKS ≠ 0 then RESOLVE_NO_SYMLINKS else 0)
      ||| (if lookupFlags &&& NO_XDEV ≠ 0 then RESOLVE_NO_XDEV else 0)
    match w.openat2 dirFd pf.1 (pf.2 ||| O_NOCTTY ||| O_CLOEXEC) mode resolve with
    | .ok fd => (.ok (some fd), [])
    | .error e => if e = E2BIG ∨ e = EAGAIN then (.ok none, []) else (.error e, [])

/-! ## A small concrete world for witnesses -/

/-- Stat of the witness root directory (fd 3). -/
def dirStatW : Stat := ⟨1, 1, 0o40755⟩

/-- Stat of the witness regular file `a` (fd 4). -/
def fileStatW : Stat := ⟨1, 2, 0o100644⟩

/-- Stat of the witness subdirectory `s` (fd 5). -/
def subStatW : Stat := ⟨1, 3, 0o40755⟩

/-- A tiny concrete filesystem: fd 3 is a directory holding file `a`
(opens as fd 4) and subdirectory `s` (fd 5); `.` of fd 3 reopens as fd 6;
`..` of fd 5 opens as fd 7 with the root's identity; everything lives on
mount 7; `openat2` is unavailable. -/
def cw : World where
  fstat fd :=
    if fd = 3 then .ok dirStatW
    else if fd = 4 then .ok fileStatW
    else if fd = 5 then .ok subStatW
    else if fd = 6 then .ok dirStatW
    else if fd = 7 then .ok dirStatW
    else .error EBADF
  openatRaw dirFd name _fl _mode :=
    if dirFd = 3 ∧ name = ['a'] then .ok 4
    else if dirFd = 3 ∧ name = ['s'] then .ok 5
    else if dirFd = 3 ∧ name = ['.'] then .ok 6
    else if dirFd = 5 ∧ name = ['.', '.'] then .ok 7
    else if dirFd = 7 ∧ name = ['a'] then .ok 4
    else .error ENOENT
  readlinkat _ _ := .error EINVAL
  identifyMount fd := if 3 ≤ fd ∧ fd ≤ 7 then .ok 7 else .error ENOSYS
  symloopMax := -1
  openat2Probe := .error ENOSYS
  openat2 _ _ _ _ _ := .error ENOSYS

/-- The property traced for the close-on-exec claim: a raw flag word (as
passed to the kernel `openat`) has both `O_CLOEXEC` and `O_NOCTTY` set. -/
def TraceOK (t : List Nat) : Prop :=
  ∀ fl ∈ t, fl &&& (O_CLOEXEC ||| O_NOCTTY) = O_CLOEXEC ||| O_NOCTTY

/-! ## The queue-shape invariant of the resolver loop -/

/-- No element of the queue is the root marker. -/
def noRootAll (q : Queue) : Prop := ∀ x ∈ q, x.1 ≠ PathComp.root

/-- Every element after the first is not the root marker: the root marker
can only ever sit at the front of the queue (initial tokenization puts it
first; symlink expansion prepends it at the front). -/
def tailNoRoot : Queue → Prop
  | [] => True
  | _ :: xs => noRootAll xs

/-- The queue-shape invariant of the resolver loop: the root marker occurs
at most at the front of the queue, and whenever `saw_parent` is set the
queue holds no root marker at all — so a popped `/` always finds
`saw_parent == false`, which is the loop's `debug_assert!`. -/
def RInv (s : RState) : Prop :=
  tailNoRoot s.parts ∧ (s.sawParent = true → noRootAll s.parts)

end Obnth

namespace Obnth

/-! # Theorems -/

theorem samestat_self (st : Stat) : samestat st st = true := by
  simp [samestat]

theorem rbind_ok {α β : Type} (a : α) (t : List Nat) (f : α → Res β) :
    rbind (.ok a, t) f = ((f a).1, t ++ (f a).2) := rfl

theorem rbind_error {α β : Type} (e : Errno) (t : List Nat) (f : α → Res β) :
    rbind (.error e, t) f = (.error e, t) := rfl

/-! ## The rewind verifier on an ancestor chain -/

theorem chainWorld_fstat_natCast (stats : Nat → Stat) (k : Nat) :
    (chainWorld stats).fstat (k : Int) = .ok (stats k) := by
  simp [chainWorld]

theorem chainWorld_open_dotdot (stats : Nat → Stat) (k : Nat) (fl m : Nat) :
    open_dotdot (chainWorld stats) (k : Int) fl m =
      (.ok (((k + 1 : Nat)) : Int), [fl ||| O_CLOEXEC ||| O_NOCTTY]) := by
  simp [open_dotdot, openatR, chainWorld]

/-- One unfolded iteration of `checkBeneathLoop` on the chain world,
projected to the outcome. -/
theorem chain_loop_red (stats : Nat → Stat) (root : Stat) (f k : Nat) (prev : Stat) :
    (checkBeneathLoop (chainWorld stats) root 0 (f + 1) (some (k : Int)) prev).1 =
      (if samestat (stats k) root = true then Except.ok ()
       else if samestat (stats k) prev = true then Except.error EAGAIN
       else (checkBeneathLoop (chainWorld stats) root 0 f
              (some ((k + 1 : Nat) : Int)) (stats k)).1) := by
  simp only [checkBeneathLoop, Option.getD_some, fstatR, chainWorld_fstat_natCast,
    rbind_ok, List.nil_append]
  by_cases h1 : samestat (stats k) root = true
  · simp [h1]
  · simp only [h1, Bool.false_eq_true, if_false]
    by_cases h2 : samestat (stats k) prev = true
    · simp [h2]
    · simp only [h2, Option.isSome_some, Bool.true_and, Bool.false_eq_true, if_false]
      rw [chainWorld_open_dotdot, rbind_ok]

/-- The inner induction for the rewind-verifier claim: from link `k ≥ 1` of
the chain (previous stat `stats (k-1)`), the loop succeeds iff the root
identity occurs in the remaining live chain `[k, N]`, and otherwise reports
`EAGAIN` at the stabilization point. -/
theorem chain_loop_spec (stats : Nat → Stat) (root : Stat) (N : Nat)
    (hstab : ∀ i, N ≤ i → stats i = stats N)
    (hdist : ∀ i, i < N → samestat (stats (i + 1)) (stats i) = false) :
    ∀ fuel k, 1 ≤ k → k ≤ N + 1 → N + 2 - k ≤ fuel →
      (∀ i, i < k → samestat (stats i) root = false) →
      ((∃ i, k ≤ i ∧ i ≤ N ∧ samestat (stats i) root = true) →
        (checkBeneathLoop (chainWorld stats) root 0 fuel
          (some (k : Int)) (stats (k - 1))).1 = .ok ()) ∧
      ((∀ i, k ≤ i → i ≤ N → samestat (stats i) root = false) →
        (checkBeneathLoop (chainWorld stats) root 0 fuel
          (some (k : Int)) (stats (k - 1))).1 = .error EAGAIN) := by
  intro fuel
  induction fuel with
  | zero => intro k hk1 hkN hfuel _; omega
  | succ f ih =>
    intro k hk1 hkN hfuel hpast
    constructor
    · rintro ⟨i, hki, hiN, hPi⟩
      have hkN' : k ≤ N := le_trans hki hiN
      rw [chain_loop_red]
      by_cases hmatch : samestat (stats k) root = true
      · rw [if_pos hmatch]
      · rw [if_neg hmatch]
        have hd := hdist (k - 1) (by omega)
        rw [Nat.sub_add_cancel hk1] at hd
        rw [if_neg (by simp [hd])]
        have hik : k + 1 ≤ i := by
          rcases Nat.lt_or_ge k i with h | h
          · omega
          · exfalso
            have : i = k := by omega
            rw [this] at hPi
            exact hmatch hPi
        have := (ih (k + 1) (by omega) (by omega) (by omega)
          (fun j hj => by
            rcases Nat.lt_or_ge j k with h | h
            · exact hpast j h
            · have : j = k := by omega
              rw [this]
              simpa using hmatch)).1 ⟨i, hik, hiN, hPi⟩
        simpa using this
    · intro hnone
      rw [chain_loop_red]
      have hmatch : samestat (stats k) root = false := by
        by_cases hkN' : k ≤ N
        · exact hnone k le_rfl hkN'
        · have h1 : stats k = stats N := hstab k (by omega)
          rw [h1]
          exact hpast N (by omega)
      rw [if_neg (by simp [hmatch])]
      by_cases hkN' : k ≤ N
      · have hd := hdist (k - 1) (by omega)
        rw [Nat.sub_add_cancel hk1] at hd
        rw [if_neg (by simp [hd])]
        have := (ih (k + 1) (by omega) (by omega) (by omega)
          (fun j hj => by
            rcases Nat.lt_or_ge j k with h | h
            · exact hpast j h
            · have : j = k := by omega
              rw [this, hmatch])).2
          (fun i h1 h2 => hnone i (by omega) h2)
        simpa using this
      · have hsame : samestat (stats k) (stats (k - 1)) = true := by
          have h1 : stats k = stats N := hstab k (by omega)
          have h2 : stats (k - 1) = stats N := by
            rcases Nat.lt_or_ge (k - 1) N with h | h
            · omega
            · exact hstab (k - 1) h
          rw [h1, h2]
          exact samestat_self _
        rw [if_pos hsame]

/-- C2: `check_beneath` on an ancestor chain (stat identities `stats 0`,
`stats 1`, … for the starting descriptor and the successively opened `..`
parents, stabilizing at the real filesystem root `stats N`, whose `..`
points to itself) returns success exactly when some ancestor in the chain
— the starting descriptor included — carries the captured root identity,
and returns `EAGAIN` exactly when the chain reaches the self-parenting
real root (two consecutive identical identities) without the root identity
ever having been seen. -/
theorem check_beneath_chain_spec (stats : Nat → Stat) (root : Stat) (N fuel : Nat)
    (hstab : ∀ i, N ≤ i → stats i = stats N)
    (hdist : ∀ i, i < N → samestat (stats (i + 1)) (stats i) = false)
    (hfuel : N + 2 ≤ fuel) :
    ((check_beneath (chainWorld stats) 0 root fuel).1 = .ok ()
      ↔ ∃ i, i ≤ N ∧ samestat (stats i) root = true) ∧
    ((check_beneath (chainWorld stats) 0 root fuel).1 = .error EAGAIN
      ↔ ∀ i, i ≤ N → samestat (stats i) root = false) := by
  obtain ⟨f, rfl⟩ : ∃ f, fuel = f + 1 := ⟨fuel - 1, by omega⟩
  have hfstat0 : (chainWorld stats).fstat (0 : Int) = .ok (stats 0) := by
    simpa using chainWorld_fstat_natCast stats 0
  have hred : (check_beneath (chainWorld stats) 0 root (f + 1)).1 =
      (if samestat (stats 0) root = true then Except.ok ()
       else (checkBeneathLoop (chainWorld stats) root 0 f
              (some ((1 : Nat) : Int)) (stats 0)).1) := by
    simp only [check_beneath, checkBeneathLoop, Option.getD_none, fstatR, hfstat0,
      rbind_ok, List.nil_append]
    by_cases h1 : samestat (stats 0) root = true
    · simp [h1]
    · simp only [h1, Bool.false_eq_true, if_false, Option.isSome_none, Bool.false_and]
      have hdd : open_dotdot (chainWorld stats) (0 : Int) DIR_OPEN_FLAGS 0 =
          (.ok (((1 : Nat)) : Int), [DIR_OPEN_FLAGS ||| O_CLOEXEC ||| O_NOCTTY]) := by
        simpa using chainWorld_open_dotdot stats 0 DIR_OPEN_FLAGS 0
      rw [hdd, rbind_ok]
  have key1 : (∃ i, i ≤ N ∧ samestat (stats i) root = true) →
      (check_beneath (chainWorld stats) 0 root (f + 1)).1 = .ok () := by
    rintro ⟨i, hiN, hPi⟩
    rw [hred]
    by_cases h0 : samestat (stats 0) root = true
    · rw [if_pos h0]
    · rw [if_neg h0]
      have hi1 : 1 ≤ i := by
        rcases Nat.eq_zero_or_pos i with h | h
        · exfalso; rw [h] at hPi; exact h0 hPi
        · exact h
      have := (chain_loop_spec stats root N hstab hdist f 1 le_rfl (by omega) (by omega)
        (fun j hj => by
          have : j = 0 := by omega
          rw [this]
          simpa using h0)).1 ⟨i, hi1, hiN, hPi⟩
      simpa using this
  have key2 : (∀ i, i ≤ N → samestat (stats i) root = false) →
      (check_beneath (chainWorld stats) 0 root (f + 1)).1 = .error EAGAIN := by
    intro hall
    rw [hred]
    have h0 : samestat (stats 0) root = false := hall 0 (by omega)
    rw [if_neg (by simp [h0])]
    have := (chain_loop_spec stats root N hstab hdist f 1 le_rfl (by omega) (by omega)
      (fun j hj => by
        have : j = 0 := by omega
        rw [this, h0])).2 (fun i h1 h2 => hall i h2)
    simpa using this
  refine ⟨⟨?_, key1⟩, ⟨?_, key2⟩⟩
  · intro hok
    by_contra hc
    have hall : ∀ i, i ≤ N → samestat (stats i) root = false := by
      intro i hi
      by_contra hbad
      exact hc ⟨i, hi, by simpa using hbad⟩
    have := key2 hall
    rw [hok] at this
    exact Except.noConfusion this
  · intro heg i hi
    by_contra hbad
    have := key1 ⟨i, hi, by simpa using hbad⟩
    rw [heg] at this
    exact Except.noConfusion this

/-- Witness for C2 on a two-link chain whose parent carries the root
identity. -/
theorem check_beneath_chain_spec_witness :
    (check_beneath
      (chainWorld (fun i => if i = 0 then (⟨1, 5, 0⟩ : Stat) else ⟨1, 9, 0⟩))
      0 ⟨1, 9, 0⟩ 3).1 = Except.ok () := by
  refine (check_beneath_chain_spec _ _ 1 3 ?_ ?_ (by omega)).1.mpr ⟨1, le_rfl, by decide⟩
  · intro i hi
    have h0 : i ≠ 0 := by omega
    simp [h0]
  · intro i hi
    have h0 : i = 0 := by omega
    subst h0
    decide

/-! ## Helper lemmas about the tokenizer -/

theorem annotateLast_map_fst (fl : Nat) (l : List PathComp) :
    (annotateLast fl l).map Prod.fst = l := by
  induction l with
  | nil => rfl
  | cons c rest ih =>
    cases rest with
    | nil => rfl
    | cons c2 rest2 => simpa [annotateLast] using ih

theorem annotateLast_ne_nil (fl : Nat) (l : List PathComp) (h : l ≠ []) :
    annotateLast fl l ≠ [] := by
  intro hnil
  apply h
  have := annotateLast_map_fst fl l
  rw [hnil] at this
  simpa using this.symm

theorem annotateLast_dropLast (fl : Nat) (l : List PathComp) :
    ∀ x ∈ (annotateLast fl l).dropLast, x.2 = DIR_OPEN_FLAGS := by
  induction l with
  | nil => intro x hx; simp [annotateLast] at hx
  | cons c rest ih =>
    cases rest with
    | nil => intro x hx; simp [annotateLast] at hx
    | cons c2 rest2 =>
      intro x hx
      rw [annotateLast,
        List.dropLast_cons_of_ne_nil (annotateLast_ne_nil fl (c2 :: rest2) (by simp))] at hx
      rcases List.mem_cons.mp hx with h | h
      · rw [h]
      · exact ih x h

theorem annotateLast_getLast? (fl : Nat) (l : List PathComp) :
    ∀ cf, (annotateLast fl l).getLast? = some cf → cf.2 = fl := by
  induction l with
  | nil => intro cf h; simp [annotateLast] at h
  | cons c rest ih =>
    cases rest with
    | nil =>
      intro cf h
      simp only [annotateLast, List.getLast?_singleton, Option.some.injEq] at h
      rw [← h]
    | cons c2 rest2 =>
      intro cf h
      rw [annotateLast] at h
      obtain ⟨y, ys, hA⟩ :=
        List.exists_cons_of_ne_nil (annotateLast_ne_nil fl (c2 :: rest2) (by simp))
      rw [hA, List.getLast?_cons_cons] at h
      exact ih cf (by rw [hA]; exact h)

theorem mem_annotateLast_fst (fl : Nat) (l : List PathComp) (x : PathComp × Nat)
    (hx : x ∈ annotateLast fl l) : x.1 ∈ l := by
  have : x.1 ∈ (annotateLast fl l).map Prod.fst := List.mem_map_of_mem Prod.fst hx
  rwa [annotateLast_map_fst] at this

theorem segComp_ne_root (n : Name) : segComp n ≠ .root := by
  unfold segComp; split <;> simp

theorem mem_rustComponents_not_dot (p : RawPath) (c : PathComp)
    (hc : c ∈ rustComponents p) :
    c ≠ PathComp.normal ['.'] ∧ c ≠ PathComp.normal [] := by
  have hmap : ∀ c', c' ∈ ((splitSegs p).filter keepSeg).map segComp →
      c' ≠ PathComp.normal ['.'] ∧ c' ≠ PathComp.normal [] := by
    intro c' hc'
    obtain ⟨n, hn, rfl⟩ := List.mem_map.mp hc'
    have hkeep : keepSeg n = true := List.of_mem_filter hn
    have hne : ¬(n = [] ∨ n = ['.']) := by
      by_contra hor
      simp [keepSeg, hor] at hkeep
    unfold segComp
    split
    · simp
    · constructor <;> intro heq <;> injection heq with h2 <;>
        exact hne (by simp [h2])
  unfold rustComponents at hc
  by_cases habs : isAbs p = true
  · rw [if_pos habs] at hc
    rcases List.mem_cons.mp hc with h | h
    · subst h; simp
    · exact hmap c h
  · rw [if_neg habs] at hc
    exact hmap c hc

theorem rustComponents_abs (p : RawPath) (h : isAbs p = true) :
    ∃ rest, rustComponents p = .root :: rest := by
  unfold rustComponents
  rw [if_pos h]
  exact ⟨_, rfl⟩

theorem mem_rustComponents_tail_ne_root (p : RawPath) (c : PathComp)
    (hc : c ∈ (rustComponents p).drop 1) : c ≠ .root := by
  have hmap : ∀ c', c' ∈ ((splitSegs p).filter keepSeg).map segComp → c' ≠ PathComp.root := by
    intro c' hc'
    obtain ⟨n, _, rfl⟩ := List.mem_map.mp hc'
    exact segComp_ne_root n
  unfold rustComponents at hc
  by_cases habs : isAbs p = true
  · rw [if_pos habs] at hc
    exact hmap c (by simpa using hc)
  · rw [if_neg habs] at hc
    exact hmap c (List.mem_of_mem_drop hc)

/-! ## Queue-shape invariant lemmas -/

theorem prefixTrace_fst {α : Type} (t : List Nat) (r : Res α) :
    (prefixTrace t r).1 = r.1 := rfl

theorem noRootAll_tailNoRoot (q : Queue) (h : noRootAll q) : tailNoRoot q := by
  cases q with
  | nil => trivial
  | cons x xs => exact fun y hy => h y (List.mem_cons_of_mem x hy)

theorem tailNoRoot_append (b q : Queue) (hb : tailNoRoot b) (hq : noRootAll q) :
    tailNoRoot (b ++ q) := by
  cases b with
  | nil => exact noRootAll_tailNoRoot q hq
  | cons x xs =>
    show noRootAll (xs ++ q)
    intro y hy
    rcases List.mem_append.mp hy with h | h
    · exact hb y h
    · exact hq y h

theorem noRootAll_annotateLast (fl : Nat) (l : List PathComp)
    (h : ∀ c ∈ l, c ≠ PathComp.root) : noRootAll (annotateLast fl l) :=
  fun x hx => h x.1 (mem_annotateLast_fst fl l x hx)

theorem tailNoRoot_annotateLast (fl : Nat) (l : List PathComp)
    (h : ∀ c ∈ l.drop 1, c ≠ PathComp.root) : tailNoRoot (annotateLast fl l) := by
  cases l with
  | nil => trivial
  | cons c cs =>
    cases cs with
    | nil => exact fun y hy => absurd hy (List.not_mem_nil y)
    | cons c2 rest =>
      show noRootAll (annotateLast fl (c2 :: rest))
      exact noRootAll_annotateLast fl (c2 :: rest) (fun d hd => h d (by simpa using hd))

theorem tailNoRoot_split_path (p : RawPath) (flags : Nat) (q : Queue)
    (h : split_path p flags = .ok q) : tailNoRoot q := by
  by_cases hp : p = []
  · simp [split_path, hp] at h
  · rw [split_path, if_neg hp] at h
    rw [← Except.ok.inj h]
    exact tailNoRoot_annotateLast _ _ (fun c hc => mem_rustComponents_tail_ne_root p c hc)

theorem tailNoRoot_split_link (p : RawPath) (fl : Nat) (q q2 : Queue)
    (hq : noRootAll q) (h : split_link_path_into p fl q = .ok q2) : tailNoRoot q2 := by
  by_cases hp : p = []
  · simp [split_link_path_into, hp] at h
  · rw [split_link_path_into, if_neg hp] at h
    have h2 : (if annotateLast (dirFlagsFor p fl) (rustComponents p) ++ q = []
        then [(PathComp.normal ['.'], dirFlagsFor p fl)]
        else annotateLast (dirFlagsFor p fl) (rustComponents p) ++ q) = q2 :=
      Except.ok.inj h
    rw [← h2]
    split
    · exact fun y hy => absurd hy (List.not_mem_nil y)
    · exact tailNoRoot_append _ _
        (tailNoRoot_annotateLast _ _ (fun c hc => mem_rustComponents_tail_ne_root p c hc))
        hq

theorem handle_possible_symlink_queue (w : World) (relfd : Int) (relpath : Name)
    (flags : Nat) (eno : Errno) (links : SymlinkCounter) (parts : Queue)
    (hq : noRootAll parts) :
    ∀ lp, (handle_possible_symlink w relfd relpath flags eno links parts).1 = .ok lp →
      tailNoRoot lp.2 := by
  intro lp h
  rw [handle_possible_symlink] at h
  split at h
  · simp at h
  · split at h
    · split at h <;> simp at h
    · next target heq =>
      split at h
      · simp at h
      · split at h
        · simp at h
        · split at h
          · simp at h
          · next parts2 heq2 =>
            simp only [Except.ok.injEq] at h
            rw [← h]
            exact tailNoRoot_split_link target flags parts parts2 hq heq2

theorem stepFinish_more_inv (w : World) (c : Ctx) (p2 : Queue) (cur2 : Option Int)
    (sp2 : Bool) (l2 : SymlinkCounter) (prev : Int) :
    ∀ s', (stepFinish w c p2 cur2 sp2 l2 prev).1 = .ok (.more s') →
      s' = ⟨p2, cur2, sp2, l2⟩ := by
  intro s' h
  rw [stepFinish] at h
  rcases hcm : checkMntId w c.dirMntId prev cur2 with ⟨r, t0⟩
  rw [hcm] at h
  cases r with
  | error e => rw [rbind_error] at h; simp at h
  | ok u =>
    rw [rbind_ok] at h
    simp only [Except.ok.injEq, StepOut.more.injEq] at h
    exact h.symm

theorem stepEmpty_no_more (w : World) (c : Ctx) (cur : Option Int) (sp : Bool) :
    ∀ s', (stepEmpty w c cur sp).1 = .ok (.more s') → False := by
  intro s' h
  cases sp with
  | false =>
    cases cur with
    | some f => simp [stepEmpty, rbind] at h
    | none =>
      rcases ho : open_dot w c.dirFd c.origFlags c.mode with ⟨r, t0⟩
      cases r with
      | error e => simp [stepEmpty, ho, rbind] at h
      | ok f => simp [stepEmpty, ho, rbind] at h
  | true =>
    cases cur with
    | none => simp [stepEmpty, rbind] at h
    | some f =>
      rcases hcb : check_beneath w f c.dirStat c.cbFuel with ⟨r, t0⟩
      cases r with
      | error e => simp [stepEmpty, hcb, rbind] at h
      | ok u => simp [stepEmpty, hcb, rbind] at h

/-- The queue-shape invariant is preserved by every loop iteration. -/
theorem resolveStep_preserves_RInv (w : World) (c : Ctx) (s : RState)
    (hinv : RInv s) :
    ∀ s', (resolveStep w c s).1 = .ok (.more s') → RInv s' := by
  obtain ⟨parts, cur, sp, links⟩ := s
  obtain ⟨hinv1, hinv2⟩ := hinv
  intro s' hstep
  cases parts with
  | nil => exact absurd hstep (by intro h; exact stepEmpty_no_more w c cur sp s' h)
  | cons hd rest =>
    obtain ⟨part, flags⟩ := hd
    have hrest : noRootAll rest := hinv1
    have hrinv : RState.mk rest none false links = RState.mk rest none false links := rfl
    cases part with
    | root =>
      simp only [resolveStep, stepRoot] at hstep
      split at hstep
      · simp at hstep
      · have hs := stepFinish_more_inv w c rest none sp links
          ((cur.getD c.dirFd)) s' hstep
        rw [hs]
        exact ⟨noRootAll_tailNoRoot rest hrest, fun _ => hrest⟩
    | parent =>
      simp only [resolveStep, stepParent] at hstep
      cases cur with
      | none =>
        rw [rbind_ok] at hstep
        rw [if_pos rfl] at hstep
        split at hstep
        · simp at hstep
        · have hs := stepFinish_more_inv w c rest none false links
            ((Option.getD none c.dirFd)) s' hstep
          rw [hs]
          exact ⟨noRootAll_tailNoRoot rest hrest, fun _ => hrest⟩
      | some f =>
        cases hst : w.fstat f with
        | error e =>
          simp only [fstatR, hst, rbind_error] at hstep
          simp at hstep
        | ok st =>
          simp only [fstatR, hst, rbind_ok] at hstep
          by_cases hsame : samestat st c.dirStat = true
          · rw [if_pos hsame] at hstep
            split at hstep
            · simp at hstep
            · have hs := stepFinish_more_inv w c rest none false links
                ((Option.getD (some f) c.dirFd)) s' hstep
              rw [hs]
              exact ⟨noRootAll_tailNoRoot rest hrest, fun _ => hrest⟩
          · rw [if_neg hsame] at hstep
            rcases hod : open_dotdot w (Option.getD (some f) c.dirFd) flags c.mode
              with ⟨r, t0⟩
            rw [hod] at hstep
            cases r with
            | error e => rw [rbind_error] at hstep; simp at hstep
            | ok nf =>
              rw [rbind_ok] at hstep
              have hs := stepFinish_more_inv w c rest (some nf) true links
                ((Option.getD (some f) c.dirFd)) s' hstep
              rw [hs]
              exact ⟨noRootAll_tailNoRoot rest hrest, fun _ => hrest⟩
    | normal name =>
      simp only [resolveStep, stepNormal] at hstep
      rcases hpre : (if sp = true then check_beneath w (cur.getD c.dirFd) c.dirStat c.cbFuel
          else ((.ok (), []) : Res Unit)) with ⟨r0, t0⟩
      rw [hpre] at hstep
      cases r0 with
      | error e => rw [rbind_error] at hstep; simp at hstep
      | ok u =>
        rw [rbind_ok] at hstep
        cases hop : w.openatRaw (cur.getD c.dirFd) name
            ((flags ||| O_NOFOLLOW) ||| O_CLOEXEC ||| O_NOCTTY) c.mode with
        | error e =>
          simp only [openatR, hop, prefixTrace] at hstep
          split at hstep
          · simp at hstep
          · rcases hh : handle_possible_symlink w (cur.getD c.dirFd) name flags e links rest
              with ⟨rh, th⟩
            rw [hh] at hstep
            cases rh with
            | error e2 => rw [rbind_error] at hstep; simp at hstep
            | ok lp =>
              rw [rbind_ok] at hstep
              have hs := stepFinish_more_inv w c lp.2 cur false lp.1
                ((cur.getD c.dirFd)) s' hstep
              rw [hs]
              refine ⟨?_, fun hfalse => by simp at hfalse⟩
              exact handle_possible_symlink_queue w (cur.getD c.dirFd) name flags e
                links rest hrest lp (by rw [hh])
        | ok f =>
          simp only [openatR, hop, prefixTrace] at hstep
          split at hstep
          · split at hstep
            · simp at hstep
            · split at hstep
              · rcases hh : handle_possible_symlink w f [] flags ELOOP links rest
                  with ⟨rh, th⟩
                rw [hh] at hstep
                cases rh with
                | error e2 => rw [rbind_error] at hstep; simp at hstep
                | ok lp =>
                  rw [rbind_ok] at hstep
                  simp only [Except.ok.injEq, StepOut.more.injEq] at hstep
                  rw [← hstep]
                  refine ⟨?_, fun hfalse => by simp at hfalse⟩
                  exact handle_possible_symlink_queue w f [] flags ELOOP
                    links rest hrest lp (by rw [hh])
              · have hs := stepFinish_more_inv w c rest (some f) false links
                  ((cur.getD c.dirFd)) s' hstep
                rw [hs]
                exact ⟨noRootAll_tailNoRoot rest hrest, fun hfalse => by simp at hfalse⟩
          · have hs := stepFinish_more_inv w c rest (some f) false links
              ((cur.getD c.dirFd)) s' hstep
            rw [hs]
            exact ⟨noRootAll_tailNoRoot rest hrest, fun hfalse => by simp at hfalse⟩

/-! ## Claim theorems: tokenizer -/

/-- C7: `split_path` fails with `ENOENT` on the empty path and succeeds on
every non-empty path; in its output no `.` (and no empty-named) component
ever appears; an absolute path puts the root marker first; every component
but the last is annotated with `DIR_OPEN_FLAGS` and the last carries the
caller's flags, with `O_DIRECTORY` added exactly when the path ends in `/`
or `/.`. -/
theorem split_path_spec (p : RawPath) (flags : Nat) :
    (p = [] → split_path p flags = .error ENOENT) ∧
    (p ≠ [] → ∃ q, split_path p flags = .ok q) ∧
    (∀ q, split_path p flags = .ok q →
      (∀ cf ∈ q, cf.1 ≠ PathComp.normal ['.'] ∧ cf.1 ≠ PathComp.normal []) ∧
      (isAbs p = true → ∃ fl rest, q = (PathComp.root, fl) :: rest) ∧
      (∀ cf ∈ q.dropLast, cf.2 = DIR_OPEN_FLAGS) ∧
      (∀ cf, q.getLast? = some cf →
        cf.2 = if dirish p then flags ||| O_DIRECTORY else flags)) := by
  refine ⟨?_, ?_, ?_⟩
  · intro h; simp [split_path, h]
  · intro h
    exact ⟨annotateLast (dirFlagsFor p flags) (rustComponents p),
      by rw [split_path, if_neg h]⟩
  · intro q hq
    by_cases hp : p = []
    · simp [split_path, hp] at hq
    · rw [split_path, if_neg hp] at hq
      have hq' : q = annotateLast (dirFlagsFor p flags) (rustComponents p) :=
        (Except.ok.inj hq).symm
      subst hq'
      refine ⟨?_, ?_, annotateLast_dropLast _ _, ?_⟩
      · intro cf hcf
        exact mem_rustComponents_not_dot p cf.1 (mem_annotateLast_fst _ _ cf hcf)
      · intro habs
        obtain ⟨rest, hrest⟩ := rustComponents_abs p habs
        rw [hrest]
        cases rest with
        | nil => exact ⟨_, [], rfl⟩
        | cons c2 rest2 => exact ⟨_, _, rfl⟩
      · intro cf hcf
        have := annotateLast_getLast? (dirFlagsFor p flags) (rustComponents p) cf hcf
        rwa [dirFlagsFor] at this

/-- Witness for C7 at concrete paths `""` and `"/a"`. -/
theorem split_path_spec_witness :
    split_path [] 0 = Except.error ENOENT ∧
    (∃ fl rest, [(PathComp.root, DIR_OPEN_FLAGS), (PathComp.normal ['a'], 0)] =
      (PathComp.root, fl) :: rest) := by
  refine ⟨(split_path_spec [] 0).1 rfl, ?_⟩
  exact ((split_path_spec ['/', 'a'] 0).2.2 _ (by rfl)).2.1 (by decide)

/-- C8: `split_link_path_into` tokenizes the symlink target with the very
same rules as `split_path` (so the last prepended component carries the
expanded component's flags) and prepends the result onto the queue; when
that would leave the whole queue empty it instead pushes a single
synthetic `.` component carrying those flags (`O_DIRECTORY` included when
the target ends in `/` or `/.`). -/
theorem split_link_path_into_spec (p : RawPath) (flags : Nat) (queue : Queue)
    (h : p ≠ []) :
    ∃ sp, split_path p flags = .ok sp ∧
      split_link_path_into p flags queue =
        .ok (if sp ++ queue = [] then [(PathComp.normal ['.'], dirFlagsFor p flags)]
             else sp ++ queue) := by
  have h1 : split_path p flags =
      .ok (annotateLast (dirFlagsFor p flags) (rustComponents p)) := by
    rw [split_path, if_neg h]
  refine ⟨_, h1, ?_⟩
  rw [split_link_path_into, if_neg h]

/-- Witness for C8: a link target that is pure `.` onto an empty queue
yields the synthetic `.` component with the caller's flags. -/
theorem split_link_path_into_spec_witness :
    split_link_path_into ['.'] 5 [] = Except.ok [(PathComp.normal ['.'], 5)] := by
  obtain ⟨sp, h1, h2⟩ := split_link_path_into_spec ['.'] 5 [] (by decide)
  rw [show split_path ['.'] 5 = Except.ok [] from by rfl] at h1
  have hsp : ([] : Queue) = sp := Except.ok.inj h1
  rw [← hsp] at h2
  simpa [show dirFlagsFor ['.'] 5 = 5 from by decide] using h2

/-! ## The open-flag trace: every open carries `O_CLOEXEC | O_NOCTTY` -/

theorem or_mask_absorb (a b : Nat) : (a ||| b) &&& b = b := by
  apply Nat.eq_of_testBit_eq
  intro i
  simp only [Nat.testBit_and, Nat.testBit_or]
  cases Nat.testBit b i <;> simp

theorem traceOK_nil : TraceOK [] := fun fl h => absurd h (List.not_mem_nil fl)

theorem traceOK_append (t1 t2 : List Nat) (h1 : TraceOK t1) (h2 : TraceOK t2) :
    TraceOK (t1 ++ t2) := by
  intro fl hfl
  rcases List.mem_append.mp hfl with h | h
  · exact h1 fl h
  · exact h2 fl h

theorem traceOK_rbind {α β : Type} (x : Res α) (f : α → Res β)
    (hx : TraceOK x.2) (hf : ∀ a, TraceOK (f a).2) : TraceOK (rbind x f).2 := by
  rcases x with ⟨r, t⟩
  cases r with
  | error e => exact hx
  | ok a => exact traceOK_append t (f a).2 hx (hf a)

theorem traceOK_openatR (w : World) (d : Int) (p : Name) (f m : Nat) :
    TraceOK (openatR w d p f m).2 := by
  intro fl hfl
  rw [openatR] at hfl
  simp only [List.mem_singleton] at hfl
  rw [hfl, Nat.or_assoc, or_mask_absorb]

theorem traceOK_checkMntId (w : World) (dmi : Option Nat) (prev : Int)
    (nf : Option Int) : TraceOK (checkMntId w dmi prev nf).2 := by
  rcases dmi with _ | mid
  · exact traceOK_nil
  · rcases nf with _ | g
    · exact traceOK_nil
    · rw [show checkMntId w (some mid) prev (some g) =
        if g ≠ prev then
          rbind (identifyMountR w g) fun m =>
            if m ≠ mid then (.error EXDEV, []) else (.ok (), [])
        else (.ok (), []) from rfl]
      split
      · exact traceOK_rbind _ _ traceOK_nil
          (fun m => by split <;> exact traceOK_nil)
      · exact traceOK_nil

theorem handle_possible_symlink_trace (w : World) (relfd : Int) (relpath : Name)
    (flags : Nat) (eno : Errno) (links : SymlinkCounter) (parts : Queue) :
    (handle_possible_symlink w relfd relpath flags eno links parts).2 = [] := by
  rw [handle_possible_symlink]
  split
  · rfl
  · split
    · split <;> rfl
    · split
      · rfl
      · split
        · rfl
        · split <;> rfl

theorem traceOK_checkBeneathLoop (w : World) (dirStat : Stat) (baseFd : Int) :
    ∀ fuel curFile prevStat,
      TraceOK (checkBeneathLoop w dirStat baseFd fuel curFile prevStat).2 := by
  intro fuel
  induction fuel with
  | zero => intro curFile prevStat; exact traceOK_nil
  | succ n ih =>
    intro curFile prevStat
    rw [checkBeneathLoop]
    refine traceOK_rbind _ _ traceOK_nil ?_
    intro st
    split
    · exact traceOK_nil
    · split
      · exact traceOK_nil
      · exact traceOK_rbind _ _ (traceOK_openatR w _ _ _ _) (fun nf => ih _ _)

theorem traceOK_check_beneath (w : World) (baseFd : Int) (dirStat : Stat)
    (fuel : Nat) : TraceOK (check_beneath w baseFd dirStat fuel).2 :=
  traceOK_checkBeneathLoop w dirStat baseFd fuel none zeroStat

theorem traceOK_stepFinish (w : World) (c : Ctx) (p2 : Queue) (cur2 : Option Int)
    (sp2 : Bool) (l2 : SymlinkCounter) (prev : Int) :
    TraceOK (stepFinish w c p2 cur2 sp2 l2 prev).2 :=
  traceOK_rbind _ _ (traceOK_checkMntId w c.dirMntId prev cur2)
    (fun _ => traceOK_nil)

theorem traceOK_stepEmpty (w : World) (c : Ctx) (cur : Option Int) (sp : Bool) :
    TraceOK (stepEmpty w c cur sp).2 := by
  unfold stepEmpty
  refine traceOK_rbind _ _ ?_ ?_
  · split
    · split
      · exact traceOK_check_beneath w _ _ _
      · exact traceOK_nil
    · exact traceOK_nil
  · intro u
    split
    · exact traceOK_nil
    · exact traceOK_rbind _ _ (traceOK_openatR w _ _ _ _) (fun f => traceOK_nil)

theorem traceOK_stepRoot (w : World) (c : Ctx) (rest : Queue) (cur : Option Int)
    (sp : Bool) (links : SymlinkCounter) : TraceOK (stepRoot w c rest cur sp links).2 := by
  rw [stepRoot]
  split
  · exact traceOK_nil
  · exact traceOK_stepFinish w c rest none sp links _

theorem traceOK_stepParent (w : World) (c : Ctx) (rest : Queue) (flags : Nat)
    (cur : Option Int) (links : SymlinkCounter) :
    TraceOK (stepParent w c rest flags cur links).2 := by
  unfold stepParent
  refine traceOK_rbind _ _ ?_ ?_
  · split
    · exact traceOK_nil
    · exact traceOK_rbind _ _ traceOK_nil (fun st => traceOK_nil)
  · intro atRoot
    split
    · split
      · exact traceOK_nil
      · exact traceOK_stepFinish w c rest none false links _
    · exact traceOK_rbind _ _ (traceOK_openatR w _ _ _ _)
        (fun nf => traceOK_stepFinish w c rest (some nf) true links _)

theorem traceOK_stepNormal (w : World) (c : Ctx) (rest : Queue) (name : Name)
    (flags : Nat) (cur : Option Int) (sp : Bool) (links : SymlinkCounter) :
    TraceOK (stepNormal w c rest name flags cur sp links).2 := by
  rw [stepNormal]
  refine traceOK_rbind _ _ ?_ ?_
  · split
    · exact traceOK_check_beneath w _ _ _
    · exact traceOK_nil
  · intro u
    have hopen : TraceOK (openatR w (cur.getD c.dirFd) name
        (flags ||| O_NOFOLLOW) c.mode).2 := traceOK_openatR w _ _ _ _
    rcases hop : openatR w (cur.getD c.dirFd) name (flags ||| O_NOFOLLOW) c.mode
      with ⟨r, t1⟩
    rw [hop] at hopen
    cases r with
    | ok f =>
      refine traceOK_append t1 _ hopen ?_
      split
      · split
        · exact traceOK_nil
        · split
          · refine traceOK_rbind _ _ ?_ (fun lp => traceOK_nil)
            rw [handle_possible_symlink_trace]
            exact traceOK_nil
          · exact traceOK_stepFinish w c rest (some f) false links _
      · exact traceOK_stepFinish w c rest (some f) false links _
    | error e =>
      refine traceOK_append t1 _ hopen ?_
      split
      · exact traceOK_nil
      · refine traceOK_rbind _ _ ?_
          (fun lp => traceOK_stepFinish w c lp.2 cur false lp.1 _)
        rw [handle_possible_symlink_trace]
        exact traceOK_nil

theorem traceOK_resolveStep (w : World) (c : Ctx) (s : RState) :
    TraceOK (resolveStep w c s).2 := by
  rcases s with ⟨parts, cur, sp, links⟩
  rcases parts with _ | ⟨⟨part, flags⟩, rest⟩
  · exact traceOK_stepEmpty w c cur sp
  · cases part with
    | root => exact traceOK_stepRoot w c rest cur sp links
    | parent => exact traceOK_stepParent w c rest flags cur links
    | normal name => exact traceOK_stepNormal w c rest name flags cur sp links

theorem traceOK_resolveLoop (w : World) (c : Ctx) :
    ∀ fuel s, TraceOK (resolveLoop w c fuel s).2 := by
  intro fuel
  induction fuel with
  | zero => intro s; exact traceOK_nil
  | succ n ih =>
    intro s
    rw [resolveLoop]
    refine traceOK_rbind _ _ (traceOK_resolveStep w c s) ?_
    intro o
    cases o with
    | done fd => exact traceOK_nil
    | more s2 => exact ih s2

/-! ## Claim theorem: `O_CLOEXEC | O_NOCTTY` on every open -/

/-- C10: every raw flag word handed to the kernel `openat` anywhere during
a `do_open_beneath` resolution — the intermediate directory opens, the
parent opens of `check_beneath`, and the final returned descriptor's open
— has both `O_CLOEXEC` and `O_NOCTTY` set, because every one of them
funnels through the single `openat` helper built on `openat_raw`, which
unconditionally ORs those bits into whatever flags it is handed. -/
theorem all_opens_cloexec_noctty (w : World) (dirFd : Int) (path : RawPath)
    (flags mode lookupFlags fuel : Nat) :
    ∀ fl ∈ (do_open_beneath w dirFd path flags mode lookupFlags fuel).2,
      fl &&& (O_CLOEXEC ||| O_NOCTTY) = O_CLOEXEC ||| O_NOCTTY := by
  rw [do_open_beneath]
  refine traceOK_rbind _ _ traceOK_nil ?_
  intro dirStat
  split
  · exact traceOK_nil
  · split
    · exact traceOK_nil
    · refine traceOK_rbind _ _ ?_ ?_
      · split
        · exact traceOK_rbind _ _ traceOK_nil (fun m => traceOK_nil)
        · exact traceOK_nil
      · intro dmi
        split
        · exact traceOK_nil
        · exact traceOK_resolveLoop w _ fuel _

/-- Witness for C10: the single open issued when resolving `a` in the
concrete world carries both bits. -/
theorem all_opens_cloexec_noctty_witness :
    ((0 ||| O_NOFOLLOW) ||| O_CLOEXEC ||| O_NOCTTY) &&& (O_CLOEXEC ||| O_NOCTTY) =
      O_CLOEXEC ||| O_NOCTTY := by
  refine all_opens_cloexec_noctty cw 3 ['a'] 0 0 0 10 _ ?_
  rw [show (do_open_beneath cw 3 ['a'] 0 0 0 10).2 =
    [(0 ||| O_NOFOLLOW) ||| O_CLOEXEC ||| O_NOCTTY] from rfl]
  exact List.mem_singleton.mpr rfl

/-! ## Mount-identity invariant under `NO_XDEV` -/

theorem checkMntId_ok (w : World) (mid : Nat) (prev g : Int)
    (h : (checkMntId w (some mid) prev (some g)).1 = .ok ()) :
    g = prev ∨ w.identifyMount g = .ok mid := by
  rw [checkMntId] at h
  by_cases hg : g = prev
  · exact Or.inl hg
  · rw [if_pos hg] at h
    cases him : w.identifyMount g with
    | error e => simp [identifyMountR, him, rbind] at h
    | ok m =>
      simp only [identifyMountR, him, rbind_ok] at h
      by_cases hm : m = mid
      · exact Or.inr (by rw [hm])
      · rw [if_pos hm] at h
        simp at h

theorem stepFinish_ok_inv (w : World) (c : Ctx) (p2 : Queue) (cur2 : Option Int)
    (sp2 : Bool) (l2 : SymlinkCounter) (prev : Int) (o : StepOut)
    (h : (stepFinish w c p2 cur2 sp2 l2 prev).1 = .ok o) :
    o = .more ⟨p2, cur2, sp2, l2⟩ ∧ (checkMntId w c.dirMntId prev cur2).1 = .ok () := by
  rw [stepFinish] at h
  rcases hcm : checkMntId w c.dirMntId prev cur2 with ⟨r, t0⟩
  rw [hcm] at h
  cases r with
  | error e => rw [rbind_error] at h; simp at h
  | ok u =>
    rw [rbind_ok] at h
    exact ⟨by simpa using h.symm, by simp [hcm]⟩

/-- Under `NO_XDEV` (`dirMntId = some mid`), one loop iteration keeps every
held descriptor on the root mount: any new `cur_file` has been checked by
`check_mnt_id` (or literally equals the already-checked previous
descriptor), and a `done` outcome yields a descriptor on the root mount
(the final `open_dot` reopens `.` of the root itself, hypothesis `hW2`). -/
theorem resolveStep_mnt (w : World) (c : Ctx) (mid : Nat)
    (hW2 : ∀ f m fd2, w.openatRaw c.dirFd ['.'] f m = .ok fd2 →
      w.identifyMount fd2 = w.identifyMount c.dirFd)
    (hmid : c.dirMntId = some mid)
    (hroot : w.identifyMount c.dirFd = .ok mid)
    (s : RState)
    (hP : ∀ g, s.curFile = some g → w.identifyMount g = .ok mid) :
    (∀ s', (resolveStep w c s).1 = .ok (.more s') →
      ∀ g, s'.curFile = some g → w.identifyMount g = .ok mid) ∧
    (∀ fd, (resolveStep w c s).1 = .ok (.done fd) → w.identifyMount fd = .ok mid) := by
  obtain ⟨parts, cur, sp, links⟩ := s
  have hprev : w.identifyMount (cur.getD c.dirFd) = .ok mid := by
    cases cur with
    | none => exact hroot
    | some f => exact hP f rfl
  have hfin : ∀ p2 cur2 sp2 l2 o, (stepFinish w c p2 cur2 sp2 l2
        (cur.getD c.dirFd)).1 = .ok o →
      o = StepOut.more ⟨p2, cur2, sp2, l2⟩ ∧
      (∀ g, cur2 = some g → w.identifyMount g = .ok mid) := by
    intro p2 cur2 sp2 l2 o h
    obtain ⟨ho, hck⟩ := stepFinish_ok_inv w c p2 cur2 sp2 l2 _ o h
    refine ⟨ho, ?_⟩
    intro g hg
    rw [hg] at hck
    rw [hmid] at hck
    rcases checkMntId_ok w mid _ g hck with h | h
    · rw [h]; exact hprev
    · exact h
  have hfinM : ∀ p2 cur2 sp2 l2 s', (stepFinish w c p2 cur2 sp2 l2
        (cur.getD c.dirFd)).1 = .ok (.more s') →
      s' = RState.mk p2 cur2 sp2 l2 ∧
      (∀ g, cur2 = some g → w.identifyMount g = .ok mid) := by
    intro p2 cur2 sp2 l2 s' h
    obtain ⟨ho, hcur⟩ := hfin p2 cur2 sp2 l2 _ h
    exact ⟨by simpa using ho, hcur⟩
  have hfinD : ∀ p2 cur2 sp2 l2 fd, (stepFinish w c p2 cur2 sp2 l2
        (cur.getD c.dirFd)).1 = .ok (.done fd) → False := by
    intro p2 cur2 sp2 l2 fd h
    obtain ⟨ho, _⟩ := hfin p2 cur2 sp2 l2 _ h
    exact absurd ho (by simp)
  cases parts with
  | nil =>
    constructor
    · intro s' h
      exact absurd h (by intro hh; exact stepEmpty_no_more w c cur sp s' hh)
    · intro fd h
      simp only [resolveStep] at h
      cases sp with
      | false =>
        cases cur with
        | some f =>
          simp only [stepEmpty, Bool.false_eq_true, if_false, rbind_ok] at h
          simp at h
          rw [← h]
          exact hP f rfl
        | none =>
          rcases ho : open_dot w c.dirFd c.origFlags c.mode with ⟨r, t0⟩
          cases r with
          | error e => simp [stepEmpty, ho, rbind] at h
          | ok f =>
            simp only [stepEmpty, Bool.false_eq_true, if_false, rbind_ok, ho] at h
            simp at h
            rw [← h]
            have := hW2 (c.origFlags ||| O_CLOEXEC ||| O_NOCTTY) c.mode f
              (by simpa [open_dot, openatR] using congrArg Prod.fst ho)
            rw [this, hroot]
      | true =>
        cases cur with
        | none => simp [stepEmpty, rbind] at h
        | some f =>
          rcases hcb : check_beneath w f c.dirStat c.cbFuel with ⟨r, t0⟩
          cases r with
          | error e => simp [stepEmpty, hcb, rbind] at h
          | ok u =>
            simp only [stepEmpty, if_true, hcb, rbind_ok] at h
            simp at h
            rw [← h]
            exact hP f rfl
  | cons hd rest =>
    obtain ⟨part, flags⟩ := hd
    cases part with
    | root =>
      simp only [resolveStep, stepRoot]
      split
      · exact ⟨fun s' h => by simp at h, fun fd h => by simp at h⟩
      · constructor
        · intro s' h g hg
          obtain ⟨hs', hcur⟩ := hfinM rest none sp links s' h
          rw [hs'] at hg
          simp at hg
        · intro fd h
          exact absurd h (fun hh => hfinD rest none sp links fd hh)
    | parent =>
      have hcore : (∀ s', (stepParent w c rest flags cur links).1 = .ok (.more s') →
            ∀ g, s'.curFile = some g → w.identifyMount g = .ok mid) ∧
          (∀ fd, (stepParent w c rest flags cur links).1 = .ok (.done fd) → False) := by
        cases cur with
        | none =>
          constructor
          · intro s' h g hg
            simp only [stepParent, rbind_ok, if_pos trivial] at h
            split at h
            · simp at h
            · obtain ⟨hs', hcur⟩ := hfinM rest none false links s' h
              rw [hs'] at hg
              simp at hg
          · intro fd h
            simp only [stepParent, rbind_ok, if_pos trivial] at h
            split at h
            · simp at h
            · exact hfinD rest none false links fd h
        | some f =>
          cases hfs : w.fstat f with
          | error e =>
            constructor
            · intro s' h; simp [stepParent, fstatR, hfs, rbind] at h
            · intro fd h; simp [stepParent, fstatR, hfs, rbind] at h
          | ok st =>
            by_cases hsame : samestat st c.dirStat = true
            · constructor
              · intro s' h g hg
                simp only [stepParent, fstatR, hfs, rbind_ok, hsame, if_pos trivial] at h
                split at h
                · simp at h
                · obtain ⟨hs', hcur⟩ := hfinM rest none false links s' h
                  rw [hs'] at hg
                  simp at hg
              · intro fd h
                simp only [stepParent, fstatR, hfs, rbind_ok, hsame, if_pos trivial] at h
                split at h
                · simp at h
                · exact hfinD rest none false links fd h
            · have hred : ∀ z, (stepParent w c rest flags (some f) links).1 = z →
                  (rbind (open_dotdot w (Option.getD (some f) c.dirFd) flags c.mode)
                    fun nf => stepFinish w c rest (some nf) true links
                      (Option.getD (some f) c.dirFd)).1 = z := by
                intro z h
                simp only [stepParent, fstatR, hfs, rbind_ok] at h
                rw [if_neg (by simp [hsame])] at h
                exact h
              constructor
              · intro s' h g hg
                have h2 := hred _ h
                rcases hod : open_dotdot w (Option.getD (some f) c.dirFd) flags c.mode
                  with ⟨r, t0⟩
                rw [hod] at h2
                cases r with
                | error e => rw [rbind_error] at h2; simp at h2
                | ok nf =>
                  rw [rbind_ok] at h2
                  obtain ⟨hs', hcur⟩ := hfinM rest (some nf) true links s' h2
                  rw [hs'] at hg
                  simp only [Option.some.injEq] at hg
                  exact hcur g (by rw [hg])
              · intro fd h
                have h2 := hred _ h
                rcases hod : open_dotdot w (Option.getD (some f) c.dirFd) flags c.mode
                  with ⟨r, t0⟩
                rw [hod] at h2
                cases r with
                | error e => rw [rbind_error] at h2; simp at h2
                | ok nf =>
                  rw [rbind_ok] at h2
                  exact hfinD rest (some nf) true links fd h2
      exact ⟨fun s' h => hcore.1 s' (by simpa [resolveStep] using h),
        fun fd h => absurd (by simpa [resolveStep] using h) (hcore.2 fd)⟩
    | normal name =>
      have hcore : (∀ s', (stepNormal w c rest name flags cur sp links).1 =
              .ok (.more s') →
            ∀ g, s'.curFile = some g → w.identifyMount g = .ok mid) ∧
          (∀ fd, (stepNormal w c rest name flags cur sp links).1 =
            .ok (.done fd) → False) := by
        have hmain : ∀ o, (stepNormal w c rest name flags cur sp links).1 = .ok o →
            (∀ s', o = .more s' → ∀ g, s'.curFile = some g →
              w.identifyMount g = .ok mid) ∧ (∀ fd, o ≠ .done fd) := by
          intro o h
          rw [stepNormal] at h
          rcases hpre : (if sp = true
              then check_beneath w (cur.getD c.dirFd) c.dirStat c.cbFuel
              else ((.ok (), []) : Res Unit)) with ⟨r0, t0⟩
          rw [hpre] at h
          cases r0 with
          | error e => rw [rbind_error] at h; simp at h
          | ok u =>
            rw [rbind_ok] at h
            cases hop : w.openatRaw (cur.getD c.dirFd) name
                ((flags ||| O_NOFOLLOW) ||| O_CLOEXEC ||| O_NOCTTY) c.mode with
            | error e =>
              simp only [openatR, hop, prefixTrace] at h
              split at h
              · simp at h
              · rcases hh : handle_possible_symlink w (cur.getD c.dirFd) name flags e
                  links rest with ⟨rh, th⟩
                rw [hh] at h
                cases rh with
                | error e2 => rw [rbind_error] at h; simp at h
                | ok lp =>
                  rw [rbind_ok] at h
                  obtain ⟨ho, hcur⟩ := hfin lp.2 cur false lp.1 _ h
                  rw [ho]
                  constructor
                  · intro s' hs' g hg
                    simp only [StepOut.more.injEq] at hs'
                    rw [← hs'] at hg
                    simp only at hg
                    exact hP g hg
                  · intro fd hfd
                    simp at hfd
            | ok f =>
              simp only [openatR, hop, prefixTrace] at h
              split at h
              · split at h
                · simp at h
                · split at h
                  · rcases hh : handle_possible_symlink w f [] flags ELOOP links rest
                      with ⟨rh, th⟩
                    rw [hh] at h
                    cases rh with
                    | error e2 => rw [rbind_error] at h; simp at h
                    | ok lp =>
                      rw [rbind_ok] at h
                      simp only [Except.ok.injEq] at h
                      rw [← h]
                      constructor
                      · intro s' hs' g hg
                        simp only [StepOut.more.injEq] at hs'
                        rw [← hs'] at hg
                        simp only at hg
                        exact hP g hg
                      · intro fd hfd
                        simp at hfd
                  · obtain ⟨ho, hcur⟩ := hfin rest (some f) false links _ h
                    rw [ho]
                    constructor
                    · intro s' hs' g hg
                      simp only [StepOut.more.injEq] at hs'
                      rw [← hs'] at hg
                      simp only at hg
                      exact hcur g hg
                    · intro fd hfd
                      simp at hfd
              · obtain ⟨ho, hcur⟩ := hfin rest (some f) false links _ h
                rw [ho]
                constructor
                · intro s' hs' g hg
                  simp only [StepOut.more.injEq] at hs'
                  rw [← hs'] at hg
                  simp only at hg
                  exact hcur g hg
                · intro fd hfd
                  simp at hfd
        exact ⟨fun s' h => (hmain (.more s') h).1 s' rfl,
          fun fd h => absurd rfl ((hmain (.done fd) h).2 fd)⟩
      exact ⟨fun s' h => hcore.1 s' (by simpa [resolveStep] using h),
        fun fd h => absurd (by simpa [resolveStep] using h) (hcore.2 fd)⟩

/-- Under `NO_XDEV`, the fueled loop only ever returns descriptors on the
root mount. -/
theorem resolveLoop_mnt (w : World) (c : Ctx) (mid : Nat)
    (hW2 : ∀ f m fd2, w.openatRaw c.dirFd ['.'] f m = .ok fd2 →
      w.identifyMount fd2 = w.identifyMount c.dirFd)
    (hmid : c.dirMntId = some mid)
    (hroot : w.identifyMount c.dirFd = .ok mid) :
    ∀ fuel s, (∀ g, s.curFile = some g → w.identifyMount g = .ok mid) →
      ∀ fd, (resolveLoop w c fuel s).1 = .ok fd → w.identifyMount fd = .ok mid := by
  intro fuel
  induction fuel with
  | zero => intro s hP fd h; simp [resolveLoop] at h
  | succ n ih =>
    intro s hP fd h
    simp only [resolveLoop] at h
    rcases hstep : resolveStep w c s with ⟨r, t0⟩
    rw [hstep] at h
    cases r with
    | error e => rw [rbind_error] at h; simp at h
    | ok o =>
      rw [rbind_ok] at h
      cases o with
      | done fd2 =>
        have hm := (resolveStep_mnt w c mid hW2 hmid hroot s hP).2 fd2 (by rw [hstep])
        simp at h
        rw [← h]
        exact hm
      | more s2 =>
        have hP2 := (resolveStep_mnt w c mid hW2 hmid hroot s hP).1 s2 (by rw [hstep])
        exact ih s2 hP2 fd h

/-! ## Claim theorem: `NO_XDEV` enforcement -/

/-- C3: `check_mnt_id` compares the mount identity of every freshly
assigned `cur_file` against the mount identity captured from `root_fd`
and fails `EXDEV` on mismatch; consequently, whenever `do_open_beneath`
returns a descriptor under `NO_XDEV`, that descriptor's mount identity
equals `root_fd`'s (hypothesis `hW2` encodes the filesystem fact that
reopening `.` of `root_fd` stays on `root_fd`'s mount, which covers the
final fresh `open_dot`; every other held descriptor was checked — or is
the already-checked previous descriptor — after each `cur_file`-changing
transition). -/
theorem no_xdev_returned_mount (w : World) (dirFd : Int) (path : RawPath)
    (flags mode lookupFlags fuel : Nat) (fd : Int)
    (hW2 : ∀ f m fd2, w.openatRaw dirFd ['.'] f m = .ok fd2 →
      w.identifyMount fd2 = w.identifyMount dirFd)
    (hx : lookupFlags &&& NO_XDEV ≠ 0)
    (hrun : (do_open_beneath w dirFd path flags mode lookupFlags fuel).1 = .ok fd) :
    (∀ mid prev nf m2, nf ≠ prev → w.identifyMount nf = .ok m2 → m2 ≠ mid →
      checkMntId w (some mid) prev (some nf) = (.error EXDEV, [])) ∧
    ∃ mid, w.identifyMount dirFd = .ok mid ∧ w.identifyMount fd = .ok mid := by
  constructor
  · intro mid prev nf m2 hne him hm
    rw [checkMntId, if_pos hne]
    simp [identifyMountR, him, rbind, hm]
  · rw [do_open_beneath] at hrun
    cases hfs : w.fstat dirFd with
    | error e => simp [fstatR, hfs, rbind] at hrun
    | ok dirStat =>
      simp only [fstatR, hfs, rbind_ok] at hrun
      by_cases hcwd : dirFd = AT_FDCWD
      · rw [if_pos hcwd] at hrun; simp at hrun
      · rw [if_neg hcwd] at hrun
        by_cases hdir : dirStat.mode &&& S_IFMT ≠ S_IFDIR
        · rw [if_pos hdir] at hrun; simp at hrun
        · rw [if_neg hdir] at hrun
          rw [if_pos hx] at hrun
          cases him : w.identifyMount dirFd with
          | error e => simp [identifyMountR, him, rbind] at hrun
          | ok mid =>
            simp only [identifyMountR, him, rbind_ok] at hrun
            cases hsp : split_path path flags with
            | error e => rw [hsp] at hrun; simp at hrun
            | ok parts =>
              rw [hsp] at hrun
              refine ⟨mid, rfl, ?_⟩
              exact resolveLoop_mnt w
                ⟨dirFd, dirStat, some mid, lookupFlags, mode, flags, fuel⟩ mid
                hW2 rfl him fuel ⟨parts, none, false, _⟩
                (fun g hg => by simp at hg) fd hrun

/-- Witness for C3: opening `a` under `NO_XDEV` in the concrete world
returns fd 4, which carries the root's mount identity 7. -/
theorem no_xdev_returned_mount_witness :
    ∃ mid, cw.identifyMount 3 = .ok mid ∧ cw.identifyMount 4 = .ok mid := by
  refine (no_xdev_returned_mount cw 3 ['a'] 0 0 NO_XDEV 10 4 ?_ (by decide) rfl).2
  intro f m fd2 hh
  simp [cw] at hh
  rw [← hh]
  rfl

/-! ## Claim theorem: the `/` and `..` dispatch of the resolver loop -/

/-- C1: dispatch of the root and parent markers in `do_open_beneath`'s
loop. (a) A popped `/` fails `EXDEV` without `IN_ROOT`; (b) with `IN_ROOT`
it resets `current_fd` to `None` (the root), and the queue-shape invariant
— which by (g) holds for every initial queue and by (h) is preserved by
every iteration — forces `saw_parent` to be false at that point (the
code's `debug_assert!`). (c,d,e) A popped `..` with the resolver already
at the root (`current_fd` is `None`, or its stat identity equals the
root's) fails `EXDEV` unless `IN_ROOT` is set, in which case the resolver
stays at the root and clears `saw_parent`; (f) otherwise `..` opens the
parent through the flag-adding `openat` helper, replaces `current_fd` with
it and sets `saw_parent` (stated with no mount check configured, since the
claim is silent on `NO_XDEV`). -/
theorem resolver_root_parent_dispatch (w : World) (c : Ctx) :
    (∀ fl rest cur sp links, c.lookupFlags &&& IN_ROOT = 0 →
      resolveStep w c ⟨(PathComp.root, fl) :: rest, cur, sp, links⟩ =
        (.error EXDEV, [])) ∧
    (∀ fl rest cur sp links, c.lookupFlags &&& IN_ROOT ≠ 0 →
      resolveStep w c ⟨(PathComp.root, fl) :: rest, cur, sp, links⟩ =
        (.ok (.more ⟨rest, none, sp, links⟩), []) ∧
      (RInv ⟨(PathComp.root, fl) :: rest, cur, sp, links⟩ → sp = false)) ∧
    (∀ fl rest sp links, c.lookupFlags &&& IN_ROOT = 0 →
      resolveStep w c ⟨(PathComp.parent, fl) :: rest, none, sp, links⟩ =
        (.error EXDEV, [])) ∧
    (∀ fl rest sp links, c.lookupFlags &&& IN_ROOT ≠ 0 →
      resolveStep w c ⟨(PathComp.parent, fl) :: rest, none, sp, links⟩ =
        (.ok (.more ⟨rest, none, false, links⟩), [])) ∧
    (∀ fl rest f st sp links, w.fstat f = .ok st → samestat st c.dirStat = true →
      (c.lookupFlags &&& IN_ROOT = 0 →
        resolveStep w c ⟨(PathComp.parent, fl) :: rest, some f, sp, links⟩ =
          (.error EXDEV, [])) ∧
      (c.lookupFlags &&& IN_ROOT ≠ 0 →
        resolveStep w c ⟨(PathComp.parent, fl) :: rest, some f, sp, links⟩ =
          (.ok (.more ⟨rest, none, false, links⟩), []))) ∧
    (∀ fl rest f st nf sp links, w.fstat f = .ok st →
      samestat st c.dirStat = false →
      w.openatRaw f ['.', '.'] (fl ||| O_CLOEXEC ||| O_NOCTTY) c.mode = .ok nf →
      c.dirMntId = none →
      resolveStep w c ⟨(PathComp.parent, fl) :: rest, some f, sp, links⟩ =
        (.ok (.more ⟨rest, some nf, true, links⟩), [fl ||| O_CLOEXEC ||| O_NOCTTY])) ∧
    (∀ path flags q links, split_path path flags = .ok q →
      RInv ⟨q, none, false, links⟩) ∧
    (∀ s s', RInv s → (resolveStep w c s).1 = .ok (.more s') → RInv s') := by
  have hfin : ∀ rest sp links prev,
      stepFinish w c rest none sp links prev = (.ok (.more ⟨rest, none, sp, links⟩), []) := by
    intro rest sp links prev
    cases hdm : c.dirMntId with
    | none => simp [stepFinish, checkMntId, hdm, rbind]
    | some mid => simp [stepFinish, checkMntId, hdm, rbind]
  refine ⟨?_, ?_, ?_, ?_, ?_, ?_, ?_, ?_⟩
  · intro fl rest cur sp links h
    simp only [resolveStep, stepRoot]
    rw [if_pos h]
  · intro fl rest cur sp links h
    constructor
    · simp only [resolveStep, stepRoot]
      rw [if_neg h]
      exact hfin rest sp links _
    · rintro ⟨_, h2⟩
      cases hsp : sp with
      | false => rfl
      | true =>
        exfalso
        exact h2 (by rw [hsp]) (PathComp.root, fl) (List.mem_cons_self _ _) rfl
  · intro fl rest sp links h
    simp [resolveStep, stepParent, rbind, h]
  · intro fl rest sp links h
    simp [resolveStep, stepParent, rbind, h, hfin]
  · intro fl rest f st sp links hfst hsame
    constructor
    · intro h
      simp [resolveStep, stepParent, fstatR, hfst, rbind, hsame, h]
    · intro h
      simp [resolveStep, stepParent, fstatR, hfst, rbind, hsame, h, hfin]
  · intro fl rest f st nf sp links hfst hsame hopen hdm
    simp only [resolveStep, stepParent, fstatR, hfst, rbind_ok, List.nil_append]
    rw [if_neg (by simp [hsame])]
    simp only [open_dotdot, openatR, Option.getD_some, hopen, rbind_ok]
    simp [stepFinish, checkMntId, hdm, rbind]
  · intro path flags q links h
    exact ⟨tailNoRoot_split_path path flags q h, fun hfalse => by simp at hfalse⟩
  · intro s s' hinv h
    exact resolveStep_preserves_RInv w c s hinv s' h

/-- Witness for C1: a root marker without `IN_ROOT` fails `EXDEV`, and a
`..` away from the root opens the parent and sets `saw_parent`, in the
concrete world. -/
theorem resolver_root_parent_dispatch_witness :
    resolveStep cw ⟨3, dirStatW, none, 0, 0, 0, 5⟩
      ⟨[(PathComp.root, 0)], none, false, ⟨40, 0⟩⟩ = (.error EXDEV, []) ∧
    resolveStep cw ⟨3, dirStatW, none, 0, 0, 0, 5⟩
      ⟨[(PathComp.parent, DIR_OPEN_FLAGS)], some 5, false, ⟨40, 0⟩⟩ =
      (.ok (.more ⟨[], some 7, true, ⟨40, 0⟩⟩),
       [DIR_OPEN_FLAGS ||| O_CLOEXEC ||| O_NOCTTY]) := by
  constructor
  · exact (resolver_root_parent_dispatch cw _).1 0 [] none false ⟨40, 0⟩ (by decide)
  · exact (resolver_root_parent_dispatch cw _).2.2.2.2.2.1 DIR_OPEN_FLAGS [] 5
      subStatW 7 false ⟨40, 0⟩ rfl (by decide) rfl rfl

/-! ## Claim theorems: symlink expander races, preconditions, fast path -/

/-- C6: in `handle_possible_symlink`, for a component whose opener
reported `ELOOP` (the entry was a symlink) — with `O_NOFOLLOW` not in
force for it and the budget not exhausted, so the follow-up `readlinkat`
is actually attempted — a `readlinkat` failure with `EINVAL` (it is not a
symlink after all: the entry mutated between the two syscalls) surfaces
as the race error `EAGAIN`; whereas when the opener reported `ENOTDIR`,
the same `EINVAL` failure re-raises `ENOTDIR`. -/
theorem handle_possible_symlink_einval (w : World) (relfd : Int) (relpath : Name)
    (flags : Nat) (links : SymlinkCounter) (parts : Queue)
    (hrl : w.readlinkat relfd relpath = .error EINVAL) :
    (flags &&& O_NOFOLLOW ≠ O_NOFOLLOW → links.exhausted = false →
      handle_possible_symlink w relfd relpath flags ELOOP links parts =
        (.error EAGAIN, [])) ∧
    (handle_possible_symlink w relfd relpath flags ENOTDIR links parts =
      (.error ENOTDIR, [])) := by
  constructor
  · intro h1 h2
    rw [handle_possible_symlink, if_neg (by simp [h1, h2]), hrl]
    norm_num [ELOOP, ENOTDIR]
  · rw [handle_possible_symlink, if_neg (by norm_num [ELOOP, ENOTDIR]), hrl]
    norm_num

/-- Witness for C6 in the concrete world (whose `readlinkat` answers
`EINVAL` everywhere). -/
theorem handle_possible_symlink_einval_witness :
    handle_possible_symlink cw 3 ['x'] 0 ELOOP ⟨40, 0⟩ [] = (.error EAGAIN, []) ∧
    handle_possible_symlink cw 3 ['x'] 0 ENOTDIR ⟨40, 0⟩ [] = (.error ENOTDIR, []) :=
  ⟨(handle_possible_symlink_einval cw 3 ['x'] 0 ⟨40, 0⟩ [] rfl).1 (by decide) rfl,
   (handle_possible_symlink_einval cw 3 ['x'] 0 ⟨40, 0⟩ [] rfl).2⟩

/-- C9: `do_open_beneath` rejects its inputs before any path walking (the
returned trace is empty — no `openat` is ever issued): the ambient-cwd
sentinel `AT_FDCWD` as root yields `EBADF` (whether the kernel `fstat`
already rejects the pseudo-fd with `EBADF` or it succeeds and the explicit
check fires); a root whose `fstat` does not report a directory yields
`ENOTDIR`; and an empty path yields `ENOENT` (stated without `NO_XDEV`,
whose mount probe sits between these checks and tokenization). -/
theorem do_open_beneath_precondition_checks (w : World) (path : RawPath)
    (flags mode lookupFlags fuel : Nat) :
    ((w.fstat AT_FDCWD = .error EBADF ∨ ∃ st, w.fstat AT_FDCWD = .ok st) →
      do_open_beneath w AT_FDCWD path flags mode lookupFlags fuel =
        (.error EBADF, [])) ∧
    (∀ dirFd st, dirFd ≠ AT_FDCWD → w.fstat dirFd = .ok st →
      st.mode &&& S_IFMT ≠ S_IFDIR →
      do_open_beneath w dirFd path flags mode lookupFlags fuel =
        (.error ENOTDIR, [])) ∧
    (∀ dirFd st, dirFd ≠ AT_FDCWD → w.fstat dirFd = .ok st →
      st.mode &&& S_IFMT = S_IFDIR → lookupFlags &&& NO_XDEV = 0 → path = [] →
      do_open_beneath w dirFd path flags mode lookupFlags fuel =
        (.error ENOENT, [])) := by
  refine ⟨?_, ?_, ?_⟩
  · rintro (h | ⟨st, h⟩) <;>
      rw [do_open_beneath, fstatR, h] <;>
      first
        | rw [rbind_error]
        | (rw [rbind_ok, if_pos rfl]; rfl)
  · intro dirFd st hfd hst hmode
    rw [do_open_beneath, fstatR, hst, rbind_ok, if_neg hfd, if_pos hmode]
    rfl
  · intro dirFd st hfd hst hmode hxdev hpath
    rw [do_open_beneath, fstatR, hst, rbind_ok, if_neg hfd, if_neg (by simp [hmode]),
      if_neg (by simp [hxdev]), rbind_ok, hpath]
    rfl

/-- Witness for C9 in the concrete world (all three rejections). -/
theorem do_open_beneath_precondition_checks_witness :
    do_open_beneath cw AT_FDCWD ['a'] 0 0 0 10 = (.error EBADF, []) ∧
    do_open_beneath cw 4 ['a'] 0 0 0 10 = (.error ENOTDIR, []) ∧
    do_open_beneath cw 3 [] 0 0 0 10 = (.error ENOENT, []) :=
  ⟨(do_open_beneath_precondition_checks cw ['a'] 0 0 0 10).1 (Or.inl rfl),
   (do_open_beneath_precondition_checks cw ['a'] 0 0 0 10).2.1 4 fileStatW
     (by decide) rfl (by decide),
   (do_open_beneath_precondition_checks cw [] 0 0 0 10).2.2 3 dirStatW
     (by decide) rfl (by decide) (by decide) rfl⟩

/-- C5: the openat2 fast path demotes to the slow path (returns `None`
rather than an error) in exactly the advertised cases: the availability
probe finding the syscall missing (`ENOSYS`) or blocked by a sandbox
(`EPERM`), and the `openat2` call itself failing with
unsupported-extension (`E2BIG`) or mid-resolution rename detection
(`EAGAIN`); every other `openat2` error is propagated, and success is
returned as a descriptor. (The probe lives in the external `openat2_rs`
crate; see `hasOpenat2`.) -/
theorem open_beneath_openat2_fallback (w : World) (dirFd : Int) (path : RawPath)
    (flags mode lookupFlags : Nat) (hfd : dirFd ≠ AT_FDCWD) :
    (w.openat2Probe = .error ENOSYS →
      open_beneath_openat2 w dirFd path flags mode lookupFlags = (.ok none, [])) ∧
    (w.openat2Probe = .error EPERM →
      open_beneath_openat2 w dirFd path flags mode lookupFlags = (.ok none, [])) ∧
    (∀ e, w.openat2Probe = .ok () →
      (∀ p2 f2 r2, w.openat2 dirFd p2 f2 mode r2 = .error e) →
      (e = E2BIG ∨ e = EAGAIN) →
      open_beneath_openat2 w dirFd path flags mode lookupFlags = (.ok none, [])) ∧
    (∀ e, w.openat2Probe = .ok () →
      (∀ p2 f2 r2, w.openat2 dirFd p2 f2 mode r2 = .error e) →
      e ≠ E2BIG → e ≠ EAGAIN →
      open_beneath_openat2 w dirFd path flags mode lookupFlags = (.error e, [])) ∧
    (∀ fd, w.openat2Probe = .ok () →
      (∀ p2 f2 r2, w.openat2 dirFd p2 f2 mode r2 = .ok fd) →
      open_beneath_openat2 w dirFd path flags mode lookupFlags =
        (.ok (some fd), [])) := by
  refine ⟨?_, ?_, ?_, ?_, ?_⟩
  · intro hp
    rw [open_beneath_openat2, if_neg hfd, if_pos (by rw [hasOpenat2, hp])]
  · intro hp
    rw [open_beneath_openat2, if_neg hfd, if_pos (by rw [hasOpenat2, hp])]
  · intro e hp hcall he
    rw [open_beneath_openat2, if_neg hfd, if_neg (by rw [hasOpenat2, hp]; simp)]
    simp [hcall, he]
  · intro e hp hcall he1 he2
    rw [open_beneath_openat2, if_neg hfd, if_neg (by rw [hasOpenat2, hp]; simp)]
    simp [hcall, he1, he2]
  · intro fd hp hcall
    rw [open_beneath_openat2, if_neg hfd, if_neg (by rw [hasOpenat2, hp]; simp)]
    simp [hcall]

/-- Witness for C5: in the concrete world the probe reports `ENOSYS`, so
the fast path demotes. -/
theorem open_beneath_openat2_fallback_witness :
    open_beneath_openat2 cw 3 ['a'] 0 0 0 = (.ok none, []) :=
  (open_beneath_openat2_fallback cw 3 ['a'] 0 0 0 (by decide)).1 rfl

/-! ## Claim theorem: symlink counter -/

/-- C4: the symlink budget keeps `cur ≤ max` across all operations:
`new` takes `max` from the system symlink limit when it fits in `u16`,
falling back to 40; `nolinks` sets `max = 0`; `exhausted` reports
`cur ≥ max` (it is a pure function, so it modifies nothing); `advance`
fails with `ELOOP` exactly when the counter is exhausted and otherwise
increments `cur` by exactly one, preserving `cur ≤ max` — the counter
never moves past its configured maximum. -/
theorem symlink_counter_invariant :
    (∀ sys : Int, (SymlinkCounter.new sys).cur = 0 ∧ (SymlinkCounter.new sys).Wf ∧
      ((0 ≤ sys ∧ sys < 65536) → (SymlinkCounter.new sys).max = sys.toNat) ∧
      (¬(0 ≤ sys ∧ sys < 65536) → (SymlinkCounter.new sys).max = 40)) ∧
    (SymlinkCounter.nolinks.max = 0 ∧ SymlinkCounter.nolinks.Wf) ∧
    (∀ c : SymlinkCounter, c.exhausted = true ↔ c.max ≤ c.cur) ∧
    (∀ c : SymlinkCounter, c.Wf →
      (c.advance = .error ELOOP ↔ c.exhausted = true) ∧
      (c.exhausted = false →
        c.advance = .ok ⟨c.max, c.cur + 1⟩ ∧ c.cur + 1 ≤ c.max) ∧
      (∀ c', c.advance = .ok c' → c'.Wf ∧ c'.cur ≤ c.max)) := by
  refine ⟨?_, ?_, ?_, ?_⟩
  · intro sys
    refine ⟨rfl, ?_, ?_, ?_⟩
    · constructor
      · simp [SymlinkCounter.new]
      · simp only [SymlinkCounter.new, SymlinkCounter.Wf]
        split
        · next h => omega
        · norm_num [DEFAULT_SYMLOOP_MAX]
    · intro h; simp [SymlinkCounter.new, h]
    · intro h; simp [SymlinkCounter.new, h, DEFAULT_SYMLOOP_MAX]
  · exact ⟨rfl, by norm_num [SymlinkCounter.Wf, SymlinkCounter.nolinks]⟩
  · intro c; simp [SymlinkCounter.exhausted]
  · intro c hwf
    obtain ⟨hcur, hmax⟩ := hwf
    refine ⟨?_, ?_, ?_⟩
    · constructor
      · intro h
        by_contra hne
        simp only [SymlinkCounter.advance] at h
        rw [if_neg (by simpa using hne)] at h
        exact absurd h (by simp)
      · intro h; simp [SymlinkCounter.advance, h]
    · intro h
      have hlt : c.cur < c.max := by
        simp only [SymlinkCounter.exhausted, decide_eq_false_iff_not, not_le] at h
        exact h
      constructor
      · simp only [SymlinkCounter.advance, h, Bool.false_eq_true, if_false]
        congr 1
        have : c.cur + 1 < 65536 := by omega
        simp [Nat.mod_eq_of_lt this]
      · omega
    · intro c' h
      simp only [SymlinkCounter.advance] at h
      split at h
      · exact absurd h (by simp)
      · next hne =>
        have hlt : c.cur < c.max := by
          simp only [SymlinkCounter.exhausted, decide_eq_true_eq, not_le] at hne
          omega
        have hmod : (c.cur + 1) % 65536 = c.cur + 1 := Nat.mod_eq_of_lt (by omega)
        simp only [Except.ok.injEq] at h
        subst h
        refine ⟨⟨?_, hmax⟩, ?_⟩ <;> simp [hmod] <;> omega

/-- Witness for C4 at a concrete counter state. -/
theorem symlink_counter_invariant_witness :
    (SymlinkCounter.new 8).max = 8 ∧
    ((⟨8, 3⟩ : SymlinkCounter).advance = .error ELOOP ↔
      (⟨8, 3⟩ : SymlinkCounter).exhausted = true) := by
  refine ⟨?_, ?_⟩
  · exact (symlink_counter_invariant.1 8).2.2.1 (by norm_num)
  · exact ((symlink_counter_invariant.2.2.2 ⟨8, 3⟩ (by norm_num [SymlinkCounter.Wf])).1)

end Obnth
